import Mathlib

/-! aurora-utils: reducers, channel iterator and the ordered parallel processor

A verification development over a shallow embedding of

* `metrics/reducers.go`  (namespace `Metrics`),
* `util/iterch.go`       (namespace `Util`, `ChanIterator`),
* `util/parallel_ordered_work.go` (namespace `Util`, `ProcessInParallel`).

Conventions of the embedding:

* `float64` samples are taken as exact rationals (`ℚ`); rounding, infinities and NaN are
  outside the model.
* `uint64` counters are natural numbers reduced modulo `2 ^ 64`.
* A Go method with a pointer receiver becomes a function returning the new receiver state
  (together with the returned values, if any).
-/

namespace Metrics

/-! ## `metrics/reducers.go` -/

/-- The Go type `SumReducer`: `struct { sum float64 }`. -/
structure SumReducer where
  sum : ℚ
  deriving DecidableEq

/-- Go `NewSumReducer`: `&SumReducer{}` (all fields zero). -/
def NewSumReducer : SumReducer := { sum := 0 }

/-- Go `(*SumReducer).AddValue`: `r.sum += value`. -/
def SumReducer.AddValue (r : SumReducer) (value : ℚ) : SumReducer :=
  { r with sum := r.sum + value }

/-- Go `(*SumReducer).Reduce`: `res := r.sum; r.sum = 0; return res, true`. -/
def SumReducer.Reduce (r : SumReducer) : (ℚ × Bool) × SumReducer :=
  let res := r.sum
  ((res, true), { r with sum := 0 })

/-- The Go type `OverrideReducer`: `struct { value float64; hasValue bool }`. -/
structure OverrideReducer where
  value : ℚ
  hasValue : Bool
  deriving DecidableEq

/-- Go `NewOverrideReducer`: `&OverrideReducer{}`. -/
def NewOverrideReducer : OverrideReducer := { value := 0, hasValue := false }

/-- Go `(*OverrideReducer).AddValue`: `r.value = value; r.hasValue = true`. -/
def OverrideReducer.AddValue (r : OverrideReducer) (value : ℚ) : OverrideReducer :=
  { r with value := value, hasValue := true }

/-- Go `(*OverrideReducer).Reduce`. -/
def OverrideReducer.Reduce (r : OverrideReducer) : (ℚ × Bool) × OverrideReducer :=
  if !r.hasValue then ((0, false), r)
  else ((r.value, true), { r with hasValue := false })

/-- The Go type `AvgReducer`: `struct { sum float64; count uint64 }`. -/
structure AvgReducer where
  sum : ℚ
  count : Nat
  deriving DecidableEq

/-- Go `NewAvgReducer`: `&AvgReducer{}`. -/
def NewAvgReducer : AvgReducer := { sum := 0, count := 0 }

/-- Go `(*AvgReducer).AddValue`: `r.sum += value; r.count++` (`count` is a `uint64`). -/
def AvgReducer.AddValue (r : AvgReducer) (value : ℚ) : AvgReducer :=
  { r with sum := r.sum + value, count := (r.count + 1) % 2 ^ 64 }

/-- Go `(*AvgReducer).Reduce`:
```
if r.count == 0 { return 0, false }
res := r.sum / float64(r.count)
r.count = 0
return res, true
```
Only `count` is assigned; `sum` keeps its value. -/
def AvgReducer.Reduce (r : AvgReducer) : (ℚ × Bool) × AvgReducer :=
  if r.count = 0 then ((0, false), r)
  else
    let res := r.sum / (r.count : ℚ)
    ((res, true), { r with count := 0 })

/-- The Go type `MinReducer`: `struct { min float64; hasValue bool }`. -/
structure MinReducer where
  min : ℚ
  hasValue : Bool
  deriving DecidableEq

/-- Go `NewMinReducer`: `&MinReducer{}`. -/
def NewMinReducer : MinReducer := { min := 0, hasValue := false }

/-- Go `(*MinReducer).AddValue`:
`if !r.hasValue || value < r.min { r.min = value }; r.hasValue = true`. -/
def MinReducer.AddValue (r : MinReducer) (value : ℚ) : MinReducer :=
  let r1 : MinReducer := if !r.hasValue || decide (value < r.min) then { r with min := value } else r
  { r1 with hasValue := true }

/-- Go `(*MinReducer).Reduce`. -/
def MinReducer.Reduce (r : MinReducer) : (ℚ × Bool) × MinReducer :=
  if !r.hasValue then ((0, false), r)
  else ((r.min, true), { r with hasValue := false })

/-- The Go type `MaxReducer`: `struct { max float64; hasValue bool }`. -/
structure MaxReducer where
  max : ℚ
  hasValue : Bool
  deriving DecidableEq

/-- Go `NewMaxReducer`: `&MaxReducer{}`. -/
def NewMaxReducer : MaxReducer := { max := 0, hasValue := false }

/-- Go `(*MaxReducer).AddValue`:
`if !r.hasValue || value > r.max { r.max = value }; r.hasValue = true`. -/
def MaxReducer.AddValue (r : MaxReducer) (value : ℚ) : MaxReducer :=
  let r1 : MaxReducer := if !r.hasValue || decide (value > r.max) then { r with max := value } else r
  { r1 with hasValue := true }

/-- Go `(*MaxReducer).Reduce`. -/
def MaxReducer.Reduce (r : MaxReducer) : (ℚ × Bool) × MaxReducer :=
  if !r.hasValue then ((0, false), r)
  else ((r.max, true), { r with hasValue := false })

/-- A run of `AddValue` calls, one per element of `vs`, in order. -/
def SumReducer.addAll (r : SumReducer) (vs : List ℚ) : SumReducer := vs.foldl SumReducer.AddValue r

/-- A run of `AddValue` calls, one per element of `vs`, in order. -/
def OverrideReducer.addAll (r : OverrideReducer) (vs : List ℚ) : OverrideReducer :=
  vs.foldl OverrideReducer.AddValue r

/-- A run of `AddValue` calls, one per element of `vs`, in order. -/
def AvgReducer.addAll (r : AvgReducer) (vs : List ℚ) : AvgReducer := vs.foldl AvgReducer.AddValue r

/-- A run of `AddValue` calls, one per element of `vs`, in order. -/
def MinReducer.addAll (r : MinReducer) (vs : List ℚ) : MinReducer := vs.foldl MinReducer.AddValue r

/-- A run of `AddValue` calls, one per element of `vs`, in order. -/
def MaxReducer.addAll (r : MaxReducer) (vs : List ℚ) : MaxReducer := vs.foldl MaxReducer.AddValue r

end Metrics


namespace Util

/-! ## `util/iterch.go` -/

/-- The error reported by `ctx.Err()` of a `context.Context` once it is done. -/
inductive CtxErr
  | Canceled
  | DeadlineExceeded
  deriving DecidableEq, Repr

/-- The Go type `ChanIterator[T]`: `struct { ch <-chan T; closed bool }`.  The channel `ch` is
a reference to a channel owned by somebody else; what is received from it is supplied to the
model from outside, so the adapter's own state is the flag `closed`. -/
structure ChanIterator where
  closed : Bool
  deriving DecidableEq, Repr

/-- Go `NewChanIterator`: `&ChanIterator[T]{ch: ch, closed: false}`. -/
def NewChanIterator : ChanIterator := { closed := false }

/-- Go `(*ChanIterator[T]).Closed`: `return it.closed`. -/
def ChanIterator.Closed (it : ChanIterator) : Bool := it.closed

/-- The case of the `select` statement in `Iterate` that fires. -/
inductive Select (T : Type)
  /-- `case <-ctx.Done():` -/
  | ctxDone
  /-- `case v, ok := <-it.ch:` with `ok == true` -/
  | recv (v : T)
  /-- `case v, ok := <-it.ch:` with `ok == false` (channel closed and drained) -/
  | recvClosed
  deriving DecidableEq, Repr

/-- What one evaluation of the loop of `Iterate` observes: either `ctx.Err() != nil` at the
loop condition, or `ctx.Err() == nil` followed by the `select` case that fires. -/
inductive Obs (T : Type)
  | errNonNil
  | select (c : Select T)
  deriving DecidableEq, Repr

/-- Why a sequence produced by `Iterate` ended. -/
inductive Ended
  /-- `ctx.Err() != nil` at the loop condition, or `<-ctx.Done()` fired -/
  | cancelled
  /-- the receive reported `ok == false` -/
  | sourceClosed
  /-- `yield(v)` returned `false` -/
  | consumerStopped
  deriving DecidableEq, Repr

/-- Go `(*ChanIterator[T]).Iterate(ctx)` applied to a consumer `yield`:
```
for ctx.Err() == nil {
    select {
    case <-ctx.Done(): return
    case v, ok := <-it.ch:
        if !ok { it.closed = true; return }
        if !yield(v) { return }
    }
}
```
The consumer is a state-passing function (`σ` is the consumer's state).  The list is what the
successive loop evaluations observe; `none` means that the list ran out while the sequence was
still going on (the loop is blocked in `select`).  The result is the adapter after the call,
the consumer's state and the way the sequence ended. -/
def ChanIterator.Iterate {T σ : Type} (yield : σ → T → σ × Bool) :
    ChanIterator → σ → List (Obs T) → Option (ChanIterator × σ × Ended)
  | _, _, [] => none
  | it, c, Obs.errNonNil :: _ => some (it, c, Ended.cancelled)
  | it, c, Obs.select Select.ctxDone :: _ => some (it, c, Ended.cancelled)
  | it, c, Obs.select Select.recvClosed :: _ => some ({ it with closed := true }, c, Ended.sourceClosed)
  | it, c, Obs.select (Select.recv v) :: rest =>
    if !(yield c v).2 then some (it, (yield c v).1, Ended.consumerStopped)
    else ChanIterator.Iterate yield it (yield c v).1 rest

/-- A run of calls of `Iterate` on one adapter, one after the other, each call with its own
consumer and its own observations.  The result is the adapter after the last call, the
consumer's state and the way each sequence ended, oldest first; `none` when the observations
of some call run out before its sequence has ended. -/
def ChanIterator.iterateAll {T σ : Type} :
    ChanIterator → σ → List ((σ → T → σ × Bool) × List (Obs T)) →
      Option (ChanIterator × σ × List Ended)
  | it, c, [] => some (it, c, [])
  | it, c, (yield, obs) :: rest =>
    match ChanIterator.Iterate yield it c obs with
    | none => none
    | some (it1, c1, e) =>
      match ChanIterator.iterateAll it1 c1 rest with
      | none => none
      | some (it2, c2, es) => some (it2, c2, e :: es)

/-- A consumer that counts the values it is given and stops at the second one
(`break` in the loop body). -/
def stopAtSecond (n : Nat) (_ : Nat) : Nat × Bool := (n + 1, decide (n < 1))

/-- A consumer that collects every value and never stops (`for v := range seq { ... }`
without `break`). -/
def collectAll {T : Type} (acc : List T) (v : T) : List T × Bool := (acc ++ [v], true)

end Util

namespace Util

/-! ## `util/parallel_ordered_work.go`

`ProcessInParallel` starts one feeder goroutine ("Inputting"), `workersCount` workers and one
flusher goroutine ("Outputting"), then waits for all of them.  The embedding is a transition
system: `State` holds every variable of the call together with the channels it touches and a
program counter per goroutine; an `Action` names the goroutine (or the environment) that moves
and, at a `select`, which case fires; `step` is the effect of that move (`none` when the move
is not possible in that state, e.g. a receive on an empty open channel).  Any interleaving of
the goroutines is a list of actions, run by `exec`.

Channels follow the Go semantics: a send needs room in the buffer or a receiver to hand the
value to; a receive takes the oldest buffered value, or a value handed over by a blocked
sender, or reports closure once the channel is closed and drained; closing a closed channel
and sending on a closed channel raise a run-time error, and so does `make` with a buffer size
beyond the runtime's allocation limit.  A `context.Context` is done exactly when `ctx.Err()`
is non-nil, and stays so.
-/

/-- The local type `internalJob` of `ProcessInParallel`:
`struct { in A; out B; done chan struct{} }`.  `done` is never sent on, so the state of that
channel is whether it has been closed.  The last three fields are history counters that no
code reads: how often the job was received from `internalInput`, how often `out` was
assigned, and how often `close(job.done)` was executed. -/
structure internalJob (A B : Type) where
  in_ : A
  out : B
  done : Bool
  claims : Nat
  writes : Nat
  closes : Nat
  deriving DecidableEq, Repr

/-- A buffered Go channel: buffered values (oldest first), capacity, and the closed flag. -/
structure Chan (T : Type) where
  buf : List T
  cap : Nat
  closed : Bool
  deriving DecidableEq, Repr

/-- The channel that a successful Go `make(chan T, size)` returns: empty, open, of capacity
`size`. -/
def Chan.empty {T : Type} (size : Nat) : Chan T := { buf := [], cap := size, closed := false }

/-- Where the feeder goroutine (lines 28-53) stands. -/
inductive FeederPc
  /-- at the loop condition `ctx.Err() == nil` of `it.Iterate(ctx)` -/
  | loopHead
  /-- in the `select` of `it.Iterate(ctx)`, receiving from `input` -/
  | select
  /-- in `select { case <-ctx.Done(): return; case internalInput <- job: }` -/
  | sendIn (job : Nat)
  /-- in `select { case <-ctx.Done(): return; case internalOutput <- job: }` -/
  | sendOut (job : Nat)
  /-- about to run the deferred `close(internalOutput)` (registered last, run first) -/
  | closeOut
  /-- about to run the deferred `close(internalInput)` -/
  | closeIn
  /-- returned -/
  | done
  deriving DecidableEq, Repr

/-- Where a worker goroutine (lines 56-63) stands. -/
inductive WorkerPc
  /-- at the loop condition of `Iterate` -/
  | loopHead
  /-- in the `select` of `Iterate`, receiving from `internalInput` -/
  | select
  /-- about to run `job.out = processFn(job.in)` -/
  | process (job : Nat)
  /-- about to run `close(job.done)` -/
  | closeDone (job : Nat)
  /-- returned -/
  | done
  deriving DecidableEq, Repr

/-- Where the flusher goroutine (lines 66-84) stands. -/
inductive FlusherPc
  /-- at the loop condition of `Iterate` -/
  | loopHead
  /-- in the `select` of `Iterate`, receiving from `internalOutput` -/
  | select
  /-- in `select { case <-ctx.Done(): return; case <-job.done: }` -/
  | waitDone (job : Nat)
  /-- in `select { case <-ctx.Done(): return; case output <- job.out: }` -/
  | send (job : Nat)
  /-- returned -/
  | done
  deriving DecidableEq, Repr

/-- Run-time errors of the Go channel operations. -/
inductive Panic
  | closeOfClosedChannel
  | sendOnClosedChannel
  /-- `makechan: size out of range` -/
  | makechanSizeOutOfRange
  deriving DecidableEq, Repr

/-- Go `make(chan T, size)` for a non-negative `size`.  The runtime refuses a buffer that
exceeds its allocation limit with the run-time error `makechan: size out of range`.  That
limit belongs to the Go runtime and the platform, not to this repository, so it is a
parameter: `chanLimit` is the largest `size` for which `make(chan *internalJob, size)`
succeeds. -/
def Chan.make {T : Type} (chanLimit size : Nat) : Except Panic (Chan T) :=
  if size ≤ chanLimit then Except.ok (Chan.empty size)
  else Except.error Panic.makechanSizeOutOfRange

/-- The arguments `processFn`, `workersCount`, `bufferSize` of `ProcessInParallel`. -/
structure Config (A B : Type) where
  processFn : A → B
  workersCount : Nat
  bufferSize : Nat

/-- Everything a call of `ProcessInParallel` reads or writes.  A `*internalJob` is an index
into `jobs`.  `delivered`, `received`, `calls`, `claimed`, `taken` are history variables. -/
structure State (A B : Type) where
  /-- `ctx.Err()`; `ctx.Done()` is closed exactly when this is `some _` -/
  ctxErr : Option CtxErr
  /-- buffered contents of the caller's channel `input` -/
  input : List A
  inputClosed : Bool
  /-- the values sent on the caller's channel `output` by this call, oldest first -/
  output : List B
  outputClosed : Bool
  /-- the allocated jobs, in allocation order -/
  jobs : List (internalJob A B)
  internalInput : Chan Nat
  internalOutput : Chan Nat
  feeder : FeederPc
  /-- the feeder's `it := NewChanIterator(input)` -/
  feederIt : ChanIterator
  inputFullyDone : Bool
  workers : List WorkerPc
  flusher : FlusherPc
  /-- the flusher's `it := NewChanIterator(internalOutput)` -/
  flusherIt : ChanIterator
  outputFullyDone : Bool
  /-- the value returned by `ProcessInParallel`, once it has returned (`some none` is `nil`) -/
  result : Option (Option CtxErr)
  panic : Option Panic
  /-- every item ever put on `input`, oldest first -/
  delivered : List A
  /-- the items the feeder has received from `input`, oldest first -/
  received : List A
  /-- number of calls of `processFn` -/
  calls : Nat
  /-- number of jobs received from `internalInput` by workers -/
  claimed : Nat
  /-- number of jobs received from `internalOutput` by the flusher -/
  taken : Nat
  deriving DecidableEq, Repr

/-- The situation at the call: contents and state of `input`, state of `output`, state of
`ctx`. -/
structure Start (A : Type) where
  input : List A
  inputClosed : Bool
  outputClosed : Bool
  ctxErr : Option CtxErr

/-- The state after lines 23-26, 66 and the `wg.Go` calls of a call in which both `make`
calls of lines 24-25 have succeeded: both internal channels empty and open with capacity
`bufferSize`, both flags `false`, every goroutine at its start.  The call from its first
line, `make` included, is `enter`. -/
def init {A B : Type} (cfg : Config A B) (st : Start A) : State A B :=
  { ctxErr := st.ctxErr
    input := st.input
    inputClosed := st.inputClosed
    output := []
    outputClosed := st.outputClosed
    jobs := []
    internalInput := Chan.empty cfg.bufferSize
    internalOutput := Chan.empty cfg.bufferSize
    feeder := FeederPc.loopHead
    feederIt := NewChanIterator
    inputFullyDone := false
    workers := List.replicate cfg.workersCount WorkerPc.loopHead
    flusher := FlusherPc.loopHead
    flusherIt := NewChanIterator
    outputFullyDone := false
    result := none
    panic := none
    delivered := st.input
    received := []
    calls := 0
    claimed := 0
    taken := 0 }

/-- The call of `ProcessInParallel` from its first line up to the start of the goroutines:
`internalInput := make(chan *internalJob, bufferSize)` and
`internalOutput := make(chan *internalJob, bufferSize)` (lines 24-25) either both succeed,
and the goroutines are started on the two channels, or the first of them raises
`makechan: size out of range` and nothing is started. -/
def enter {A B : Type} (chanLimit : Nat) (cfg : Config A B) (st : Start A) :
    Except Panic (State A B) :=
  match Chan.make chanLimit cfg.bufferSize with
  | Except.error e => Except.error e
  | Except.ok internalInput =>
    match Chan.make chanLimit cfg.bufferSize with
    | Except.error e => Except.error e
    | Except.ok internalOutput =>
      Except.ok { init cfg st with
        internalInput := internalInput
        internalOutput := internalOutput }

/-- Who moves.  For a goroutine, `viaDone = true` says that it is in a `select` and the case
`<-ctx.Done()` fires; `viaDone = false` is its other case or its next plain statement. -/
inductive Action (A : Type)
  /-- the producer puts `x` on `input` -/
  | send (x : A)
  /-- the producer closes `input` -/
  | closeInput
  /-- `ctx` becomes done with error `e` -/
  | cancel (e : CtxErr)
  | feeder (viaDone : Bool)
  | worker (i : Nat) (viaDone : Bool)
  | flusher (viaDone : Bool)
  /-- `wg.Wait()` returns and the `return` statement runs -/
  | wait
  deriving DecidableEq, Repr

/-- A move of the feeder goroutine. -/
def feederStep {A B : Type} [Inhabited B] (s : State A B) (viaDone : Bool) : Option (State A B) :=
  match s.feeder, viaDone with
  | FeederPc.loopHead, false =>
    if s.ctxErr = none then some { s with feeder := FeederPc.select }
    else some { s with inputFullyDone := s.feederIt.Closed, feeder := FeederPc.closeOut }
  | FeederPc.select, true =>
    if s.ctxErr = none then none
    else some { s with inputFullyDone := s.feederIt.Closed, feeder := FeederPc.closeOut }
  | FeederPc.select, false =>
    match s.input with
    | x :: rest =>
      some { s with
        input := rest
        received := s.received ++ [x]
        jobs := s.jobs ++ [{ in_ := x, out := default, done := false,
                             claims := 0, writes := 0, closes := 0 }]
        feeder := FeederPc.sendIn s.jobs.length }
    | [] =>
      if s.inputClosed then
        some { s with
          feederIt := { s.feederIt with closed := true }
          inputFullyDone := true
          feeder := FeederPc.closeOut }
      else none
  | FeederPc.sendIn j, true =>
    if s.ctxErr = none then none else some { s with feeder := FeederPc.closeOut }
  | FeederPc.sendIn j, false =>
    if s.internalInput.buf.length < s.internalInput.cap then
      some { s with
        internalInput := { s.internalInput with buf := s.internalInput.buf ++ [j] }
        feeder := FeederPc.sendOut j }
    else none
  | FeederPc.sendOut j, true =>
    if s.ctxErr = none then none else some { s with feeder := FeederPc.closeOut }
  | FeederPc.sendOut j, false =>
    if s.internalOutput.buf.length < s.internalOutput.cap then
      some { s with
        internalOutput := { s.internalOutput with buf := s.internalOutput.buf ++ [j] }
        feeder := FeederPc.loopHead }
    else none
  | FeederPc.closeOut, false =>
    if s.internalOutput.closed then some { s with panic := some Panic.closeOfClosedChannel }
    else some { s with
      internalOutput := { s.internalOutput with closed := true }
      feeder := FeederPc.closeIn }
  | FeederPc.closeIn, false =>
    if s.internalInput.closed then some { s with panic := some Panic.closeOfClosedChannel }
    else some { s with
      internalInput := { s.internalInput with closed := true }
      feeder := FeederPc.done }
  | _, _ => none

/-- A move of worker `i`. -/
def workerStep {A B : Type} (cfg : Config A B) (s : State A B) (i : Nat) (viaDone : Bool) :
    Option (State A B) :=
  match s.workers[i]?, viaDone with
  | some WorkerPc.loopHead, false =>
    if s.ctxErr = none then some { s with workers := s.workers.set i WorkerPc.select }
    else some { s with workers := s.workers.set i WorkerPc.done }
  | some WorkerPc.select, true =>
    if s.ctxErr = none then none else some { s with workers := s.workers.set i WorkerPc.done }
  | some WorkerPc.select, false =>
    match s.internalInput.buf with
    | j :: rest =>
      match s.jobs[j]? with
      | some job =>
        some { s with
          internalInput := { s.internalInput with buf := rest }
          jobs := s.jobs.set j { job with claims := job.claims + 1 }
          claimed := s.claimed + 1
          workers := s.workers.set i (WorkerPc.process j) }
      | none => none
    | [] =>
      if s.internalInput.closed then some { s with workers := s.workers.set i WorkerPc.done }
      else
        match s.feeder with
        | FeederPc.sendIn j =>
          match s.jobs[j]? with
          | some job =>
            some { s with
              feeder := FeederPc.sendOut j
              jobs := s.jobs.set j { job with claims := job.claims + 1 }
              claimed := s.claimed + 1
              workers := s.workers.set i (WorkerPc.process j) }
          | none => none
        | _ => none
  | some (WorkerPc.process j), false =>
    match s.jobs[j]? with
    | some job =>
      some { s with
        jobs := s.jobs.set j { job with out := cfg.processFn job.in_, writes := job.writes + 1 }
        calls := s.calls + 1
        workers := s.workers.set i (WorkerPc.closeDone j) }
    | none => none
  | some (WorkerPc.closeDone j), false =>
    match s.jobs[j]? with
    | some job =>
      if job.done then some { s with panic := some Panic.closeOfClosedChannel }
      else
        some { s with
          jobs := s.jobs.set j { job with done := true, closes := job.closes + 1 }
          workers := s.workers.set i WorkerPc.loopHead }
    | none => none
  | _, _ => none

/-- A move of the flusher goroutine. -/
def flusherStep {A B : Type} (s : State A B) (viaDone : Bool) : Option (State A B) :=
  match s.flusher, viaDone with
  | FlusherPc.loopHead, false =>
    if s.ctxErr = none then some { s with flusher := FlusherPc.select }
    else some { s with outputFullyDone := s.flusherIt.Closed, flusher := FlusherPc.done }
  | FlusherPc.select, true =>
    if s.ctxErr = none then none
    else some { s with outputFullyDone := s.flusherIt.Closed, flusher := FlusherPc.done }
  | FlusherPc.select, false =>
    match s.internalOutput.buf with
    | j :: rest =>
      some { s with
        internalOutput := { s.internalOutput with buf := rest }
        taken := s.taken + 1
        flusher := FlusherPc.waitDone j }
    | [] =>
      if s.internalOutput.closed then
        some { s with
          flusherIt := { s.flusherIt with closed := true }
          outputFullyDone := true
          flusher := FlusherPc.done }
      else
        match s.feeder with
        | FeederPc.sendOut j =>
          some { s with
            feeder := FeederPc.loopHead
            taken := s.taken + 1
            flusher := FlusherPc.waitDone j }
        | _ => none
  | FlusherPc.waitDone j, true =>
    if s.ctxErr = none then none else some { s with flusher := FlusherPc.done }
  | FlusherPc.waitDone j, false =>
    match s.jobs[j]? with
    | some job => if job.done then some { s with flusher := FlusherPc.send j } else none
    | none => none
  | FlusherPc.send j, true =>
    if s.ctxErr = none then none else some { s with flusher := FlusherPc.done }
  | FlusherPc.send j, false =>
    match s.jobs[j]? with
    | some job =>
      if s.outputClosed then some { s with panic := some Panic.sendOnClosedChannel }
      else some { s with output := s.output ++ [job.out], flusher := FlusherPc.loopHead }
    | none => none
  | _, _ => none

/-- Lines 86-90: `wg.Wait()` returns once every goroutine has returned; then
`if inputFullyDone && outputFullyDone { return nil }; return ctx.Err()`. -/
def waitStep {A B : Type} (s : State A B) : Option (State A B) :=
  if s.result = none ∧ s.feeder = FeederPc.done ∧ s.flusher = FlusherPc.done
      ∧ s.workers.all (fun w => decide (w = WorkerPc.done)) = true then
    some { s with result := some (if s.inputFullyDone && s.outputFullyDone then none else s.ctxErr) }
  else none

/-- One move of the system.  After a run-time error nothing moves. -/
def step {A B : Type} [Inhabited B] (cfg : Config A B) (s : State A B) (a : Action A) :
    Option (State A B) :=
  if s.panic ≠ none then none
  else
    match a with
    | Action.send x =>
      if s.inputClosed then none
      else some { s with input := s.input ++ [x], delivered := s.delivered ++ [x] }
    | Action.closeInput =>
      if s.inputClosed then none else some { s with inputClosed := true }
    | Action.cancel e =>
      if s.ctxErr = none then some { s with ctxErr := some e } else none
    | Action.feeder viaDone => feederStep s viaDone
    | Action.worker i viaDone => workerStep cfg s i viaDone
    | Action.flusher viaDone => flusherStep s viaDone
    | Action.wait => waitStep s

/-- Runs a schedule from a state; `none` when some move of the schedule is not possible. -/
def exec {A B : Type} [Inhabited B] (cfg : Config A B) : State A B → List (Action A) →
    Option (State A B)
  | s, [] => some s
  | s, a :: rest =>
    match step cfg s a with
    | some s1 => exec cfg s1 rest
    | none => none

/-- The states that some interleaving of a call of `ProcessInParallel` passes through once its
two `make` calls have succeeded. -/
def Reachable {A B : Type} [Inhabited B] (cfg : Config A B) (st : Start A) (s : State A B) : Prop :=
  ∃ acts : List (Action A), exec cfg (init cfg st) acts = some s

end Util

namespace Util

/-- The job a worker has in hand, if any. -/
def WorkerPc.holds : WorkerPc → Option Nat
  | WorkerPc.process j => some j
  | WorkerPc.closeDone j => some j
  | _ => none

/-- Number of jobs that have been allocated by the feeder and not yet forwarded to `output`
by the flusher. -/
def State.unflushed {A B : Type} (s : State A B) : Nat := s.jobs.length - s.output.length

end Util

namespace Util

/-- Number of moves the feeder still makes when `input` is closed and empty and `ctx` is
never done (it does not reach `sendIn` or `sendOut` then). -/
def FeederPc.rank : FeederPc → Nat
  | FeederPc.loopHead => 4
  | FeederPc.select => 3
  | FeederPc.closeOut => 2
  | FeederPc.closeIn => 1
  | _ => 0

/-- Number of moves a worker without a job still makes when no job is ever enqueued. -/
def WorkerPc.rank : WorkerPc → Nat
  | WorkerPc.loopHead => 2
  | WorkerPc.select => 1
  | _ => 0

/-- Number of moves the flusher still makes when no job is ever enqueued. -/
def FlusherPc.rank : FlusherPc → Nat
  | FlusherPc.loopHead => 2
  | FlusherPc.select => 1
  | _ => 0

/-- Number of moves left in a run on a closed, empty `input` without cancellation. -/
def State.remaining {A B : Type} (s : State A B) : Nat :=
  s.feeder.rank + (s.workers.map WorkerPc.rank).sum + s.flusher.rank +
    (if s.result = none then 1 else 0)

/-- The action is a cancellation of `ctx`. -/
def Action.isCancel {A : Type} : Action A → Bool
  | Action.cancel _ => true
  | _ => false

/-- The call situation "`input` already closed and empty, `ctx` not done". -/
def emptyStart (A : Type) (outputClosed : Bool) : Start A :=
  { input := [], inputClosed := true, outputClosed := outputClosed, ctxErr := none }

end Util

namespace Util

/-! ## Invariants of the transition system -/

section InvariantDefs

variable {A B : Type}

/-- The queue contents `buf` are the consecutive job indices
`t, t + 1, ..., t + buf.length - 1`. -/
def Consec (t : Nat) (buf : List Nat) : Prop := buf = List.range' t buf.length

/-- Counting invariant: both internal queues hold consecutive job indices, and the program
counters of feeder and flusher agree with the numbers of jobs allocated, claimed by workers,
taken by the flusher and forwarded. -/
structure InvQ (cfg : Config A B) (s : State A B) : Prop where
  recvLen : s.received.length = s.jobs.length
  capA : s.internalInput.cap = cfg.bufferSize
  capB : s.internalOutput.cap = cfg.bufferSize
  lenA : s.internalInput.buf.length ≤ cfg.bufferSize
  lenB : s.internalOutput.buf.length ≤ cfg.bufferSize
  bufA : Consec s.claimed s.internalInput.buf
  bufB : Consec s.taken s.internalOutput.buf
  loB : s.taken + s.internalOutput.buf.length ≤ s.jobs.length
  hiB : s.jobs.length ≤ s.taken + s.internalOutput.buf.length + 1
  loA : s.claimed + s.internalInput.buf.length ≤ s.jobs.length
  hiA : s.jobs.length ≤ s.claimed + s.internalInput.buf.length + 1
  fLoop : s.feeder = FeederPc.loopHead ∨ s.feeder = FeederPc.select →
    s.taken + s.internalOutput.buf.length = s.jobs.length ∧
    s.claimed + s.internalInput.buf.length = s.jobs.length
  fIn : ∀ j, s.feeder = FeederPc.sendIn j →
    j + 1 = s.jobs.length ∧ s.taken + s.internalOutput.buf.length = j ∧
    s.claimed + s.internalInput.buf.length = j
  fOut : ∀ j, s.feeder = FeederPc.sendOut j →
    j + 1 = s.jobs.length ∧ s.taken + s.internalOutput.buf.length = j ∧
    s.claimed + s.internalInput.buf.length = j + 1
  closedB : s.internalOutput.closed = true ↔ (s.feeder = FeederPc.closeIn ∨ s.feeder = FeederPc.done)
  closedA : s.internalInput.closed = true ↔ s.feeder = FeederPc.done
  lLoop : s.flusher = FlusherPc.loopHead ∨ s.flusher = FlusherPc.select → s.taken = s.output.length
  lWait : ∀ j, s.flusher = FlusherPc.waitDone j → j = s.output.length ∧ s.taken = j + 1
  lSend : ∀ j, s.flusher = FlusherPc.send j → j = s.output.length ∧ s.taken = j + 1
  loT : s.output.length ≤ s.taken
  hiT : s.taken ≤ s.output.length + 1

/-- What is known about a single job, given how many jobs the workers have claimed. -/
structure JobOk (cfg : Config A B) (claimed j : Nat) (job : internalJob A B) : Prop where
  claims : job.claims = if j < claimed then 1 else 0
  writes : job.writes ≤ 1
  closes : job.closes ≤ job.writes
  done : job.done = true ↔ job.closes = 1
  fresh : claimed ≤ j → job.writes = 0
  out : 1 ≤ job.writes → job.out = cfg.processFn job.in_

/-- Data invariant: jobs carry the received items in order, every job is in a consistent
stage, a job is in the hands of at most one worker, and what has been sent on `output` is the
transform of the first received items. -/
structure InvJ (cfg : Config A B) (s : State A B) : Prop where
  jobIn : ∀ (j : Nat) (job : internalJob A B), s.jobs[j]? = some job → s.received[j]? = some job.in_
  deliv : s.received ++ s.input = s.delivered
  jobOk : ∀ (j : Nat) (job : internalJob A B), s.jobs[j]? = some job → JobOk cfg s.claimed j job
  wProc : ∀ (i j : Nat), s.workers[i]? = some (WorkerPc.process j) →
    j < s.claimed ∧ ∃ job, s.jobs[j]? = some job ∧ job.writes = 0
  wClose : ∀ (i j : Nat), s.workers[i]? = some (WorkerPc.closeDone j) →
    j < s.claimed ∧ ∃ job, s.jobs[j]? = some job ∧ job.writes = 1 ∧ job.closes = 0
  wUniq : ∀ (i k : Nat) (wi wk : WorkerPc) (j : Nat), s.workers[i]? = some wi → s.workers[k]? = some wk →
    wi.holds = some j → wk.holds = some j → i = k
  wLen : s.workers.length = cfg.workersCount
  lSend : ∀ j, s.flusher = FlusherPc.send j → ∃ job, s.jobs[j]? = some job ∧ job.done = true
  outEq : s.output = (s.received.take s.output.length).map cfg.processFn
  noPanic : s.panic ≠ some Panic.closeOfClosedChannel

/-- Flag invariant: what `inputFullyDone`, `outputFullyDone` and the returned value say about
the run. -/
structure InvF (s : State A B) : Prop where
  itIn : s.feederIt.closed = s.inputFullyDone
  itOut : s.flusherIt.closed = s.outputFullyDone
  inDone : s.inputFullyDone = true →
    (s.feeder = FeederPc.closeOut ∨ s.feeder = FeederPc.closeIn ∨ s.feeder = FeederPc.done) ∧
    s.inputClosed = true ∧ s.input = [] ∧
    s.taken + s.internalOutput.buf.length = s.jobs.length ∧
    s.claimed + s.internalInput.buf.length = s.jobs.length
  inCancel : s.feeder = FeederPc.closeOut ∨ s.feeder = FeederPc.closeIn ∨
    s.feeder = FeederPc.done → s.inputFullyDone = false → s.ctxErr ≠ none
  outDone : s.outputFullyDone = true →
    s.flusher = FlusherPc.done ∧ s.internalOutput.closed = true ∧ s.internalOutput.buf = [] ∧
    s.taken = s.output.length
  outCancel : s.flusher = FlusherPc.done → s.outputFullyDone = false → s.ctxErr ≠ none
  res : ∀ r, s.result = some r → s.feeder = FeederPc.done ∧ s.flusher = FlusherPc.done ∧
    r = if (s.inputFullyDone && s.outputFullyDone) = true then none else s.ctxErr

/-- What holds throughout a run started with `workersCount = 0`: nothing is ever claimed,
processed, completed or forwarded. -/
structure InvZ (s : State A B) : Prop where
  noWorkers : s.workers = []
  claimed0 : s.claimed = 0
  calls0 : s.calls = 0
  output0 : s.output = []
  notSend : ∀ j, s.flusher ≠ FlusherPc.send j
  noDone : ∀ job ∈ s.jobs, job.done = false

/-- What holds throughout a run on a closed, empty `input` in which `ctx` is never done. -/
structure InvE (oc : Bool) (s : State A B) : Prop where
  ctx : s.ctxErr = none
  input : s.input = []
  inputClosed : s.inputClosed = true
  jobs : s.jobs = []
  bufA : s.internalInput.buf = []
  bufB : s.internalOutput.buf = []
  output : s.output = []
  calls : s.calls = 0
  outClosed : s.outputClosed = oc
  panic : s.panic = none
  fIn : ∀ j, s.feeder ≠ FeederPc.sendIn j
  fOut : ∀ j, s.feeder ≠ FeederPc.sendOut j
  closedA : s.internalInput.closed = true ↔ s.feeder = FeederPc.done
  closedB : s.internalOutput.closed = true ↔
    (s.feeder = FeederPc.closeIn ∨ s.feeder = FeederPc.done)
  wpc : ∀ w ∈ s.workers, w.holds = none
  lWait : ∀ j, s.flusher ≠ FlusherPc.waitDone j
  lSend : ∀ j, s.flusher ≠ FlusherPc.send j
  inFlag : s.feeder = FeederPc.closeOut ∨ s.feeder = FeederPc.closeIn ∨
    s.feeder = FeederPc.done → s.inputFullyDone = true
  outFlag : s.flusher = FlusherPc.done → s.outputFullyDone = true
  res : ∀ r, s.result = some r → r = none ∧ s.feeder = FeederPc.done ∧
    s.flusher = FlusherPc.done ∧ ∀ w ∈ s.workers, w = WorkerPc.done

end InvariantDefs

end Util

namespace Util

/-! ## Concrete runs -/

/-- The scenario of the specification: `transform = x → x*x` on four workers. -/
def sqCfg : Config Nat Nat := { processFn := fun x => x * x, workersCount := 4, bufferSize := 2 }

/-- The channel `input` holds `1, 2, 3, 4, 5` and is closed; `ctx` is not done. -/
def sqStart : Start Nat :=
  { input := [1, 2, 3, 4, 5], inputClosed := true, outputClosed := false, ctxErr := none }

/-- A complete schedule for `sqCfg` on `sqStart` in which the four workers first take the jobs
0, 1, 2, 3 and then finish them in the order 3, 2, 1, 0, before job 4 is processed. -/
def sqActs : List (Action Nat) :=
  List.replicate 10 (Action.feeder false) ++
  [Action.worker 0 false, Action.worker 0 false, Action.feeder false,
   Action.worker 1 false, Action.worker 1 false, Action.worker 2 false, Action.worker 2 false,
   Action.worker 3 false, Action.flusher false, Action.flusher false] ++
  List.replicate 4 (Action.feeder false) ++
  List.replicate 4 (Action.worker 3 false) ++
  List.replicate 3 (Action.worker 2 false) ++
  List.replicate 3 (Action.worker 1 false) ++
  List.replicate 3 (Action.worker 0 false) ++
  List.replicate 4 (Action.flusher false) ++
  List.replicate 4 (Action.feeder false) ++
  [Action.worker 0 false] ++
  List.replicate 4 (Action.flusher false) ++
  List.replicate 5 (Action.feeder false) ++
  [Action.worker 1 false, Action.worker 2 false, Action.worker 3 false] ++
  List.replicate 8 (Action.flusher false) ++
  List.replicate 4 (Action.worker 0 false) ++
  List.replicate 4 (Action.flusher false) ++
  [Action.wait]

/-- The schedule `sqActs` interrupted after 41 moves (one value sent) by a cancellation. -/
def sqCancelActs : List (Action Nat) := sqActs.take 41 ++ [Action.cancel CtxErr.Canceled]

/-- One worker, buffer of one job. -/
def oneCfg : Config Nat Nat := { processFn := fun x => x + 1, workersCount := 1, bufferSize := 1 }

/-- The channel `input` holds `7` and stays open; `ctx` is not done. -/
def openStart : Start Nat :=
  { input := [7], inputClosed := false, outputClosed := false, ctxErr := none }

/-- The channel `input` holds `1, 2, 3, 4` and stays open; `ctx` is not done. -/
def stallStart : Start Nat :=
  { input := [1, 2, 3, 4], inputClosed := false, outputClosed := false, ctxErr := none }

/-- A schedule for `oneCfg` on `stallStart` in which nothing is ever sent on `output`: the
feeder runs until it is blocked on the full `internalOutput`. -/
def stallActs : List (Action Nat) :=
  List.replicate 4 (Action.feeder false) ++
  [Action.flusher false, Action.flusher false] ++
  [Action.feeder false, Action.feeder false, Action.worker 0 false, Action.worker 0 false] ++
  List.replicate 4 (Action.feeder false) ++
  List.replicate 4 (Action.worker 0 false) ++
  [Action.feeder false]

/-- The schedule `stallActs` followed by the flusher noticing that job 0 is done. -/
def stallSendActs : List (Action Nat) := stallActs ++ [Action.flusher false]

/-- No workers at all. -/
def zeroCfg : Config Nat Nat := { processFn := fun x => x + 1, workersCount := 0, bufferSize := 1 }

/-- A complete schedule for `zeroCfg` on a closed, empty `input`. -/
def zeroActs : List (Action Nat) :=
  List.replicate 4 (Action.feeder false) ++ [Action.flusher false, Action.flusher false, Action.wait]

/-- A complete schedule for `zeroCfg` on `openStart`: the job for `7` is enqueued on both
queues and never completed; the call returns after the cancellation. -/
def zeroItemActs : List (Action Nat) :=
  List.replicate 5 (Action.feeder false) ++
  [Action.flusher false, Action.flusher false, Action.cancel CtxErr.DeadlineExceeded,
   Action.flusher true, Action.feeder true, Action.feeder false, Action.feeder false, Action.wait]

/-- An allocation limit for `make(chan *internalJob, size)`, for instance that of the Go
runtime on 64-bit Linux: the buffer of 8-byte elements together with the 96-byte channel
header must fit into `2 ^ 48` bytes. -/
def chanLimit64 : Nat := 2 ^ 45 - 12

/-- One worker and a `bufferSize` of `1 << 60`. -/
def bigCfg : Config Nat Nat :=
  { processFn := fun x => x + 1, workersCount := 1, bufferSize := 2 ^ 60 }

/-- A complete schedule for `oneCfg` on a closed, empty `input`. -/
def emptyActs : List (Action Nat) :=
  List.replicate 4 (Action.feeder false) ++
  [Action.worker 0 false, Action.worker 0 false, Action.flusher false, Action.flusher false,
   Action.wait]

end Util

namespace Util

/-- The state reached by `sqActs`. -/
def sqFinal : State Nat Nat :=
  { ctxErr := none,
    input := [],
    inputClosed := true,
    output := [1, 4, 9, 16, 25],
    outputClosed := false,
    jobs := [{ in_ := 1, out := 1, done := true, claims := 1, writes := 1, closes := 1 },
      { in_ := 2, out := 4, done := true, claims := 1, writes := 1, closes := 1 },
      { in_ := 3, out := 9, done := true, claims := 1, writes := 1, closes := 1 },
      { in_ := 4, out := 16, done := true, claims := 1, writes := 1, closes := 1 },
      { in_ := 5, out := 25, done := true, claims := 1, writes := 1, closes := 1 }],
    internalInput := { buf := [], cap := 2, closed := true },
    internalOutput := { buf := [], cap := 2, closed := true },
    feeder := FeederPc.done,
    feederIt := { closed := true },
    inputFullyDone := true,
    workers := [WorkerPc.done, WorkerPc.done, WorkerPc.done, WorkerPc.done],
    flusher := FlusherPc.done,
    flusherIt := { closed := true },
    outputFullyDone := true,
    result := some none,
    panic := none,
    delivered := [1, 2, 3, 4, 5],
    received := [1, 2, 3, 4, 5],
    calls := 5,
    claimed := 5,
    taken := 5 }

/-- The state reached by `sqCancelActs`. -/
def sqCancelled : State Nat Nat :=
  { ctxErr := some CtxErr.Canceled,
    input := [5],
    inputClosed := true,
    output := [1],
    outputClosed := false,
    jobs := [{ in_ := 1, out := 1, done := true, claims := 1, writes := 1, closes := 1 },
      { in_ := 2, out := 4, done := true, claims := 1, writes := 1, closes := 1 },
      { in_ := 3, out := 9, done := true, claims := 1, writes := 1, closes := 1 },
      { in_ := 4, out := 16, done := true, claims := 1, writes := 1, closes := 1 }],
    internalInput := { buf := [], cap := 2, closed := false },
    internalOutput := { buf := [2], cap := 2, closed := false },
    feeder := FeederPc.sendOut 3,
    feederIt := { closed := false },
    inputFullyDone := false,
    workers := [WorkerPc.select, WorkerPc.select, WorkerPc.select, WorkerPc.select],
    flusher := FlusherPc.waitDone 1,
    flusherIt := { closed := false },
    outputFullyDone := false,
    result := none,
    panic := none,
    delivered := [1, 2, 3, 4, 5],
    received := [1, 2, 3, 4],
    calls := 4,
    claimed := 4,
    taken := 2 }

/-- The state reached by `stallActs`. -/
def stallState : State Nat Nat :=
  { ctxErr := none,
    input := [4],
    inputClosed := false,
    output := [],
    outputClosed := false,
    jobs := [{ in_ := 1, out := 2, done := true, claims := 1, writes := 1, closes := 1 },
      { in_ := 2, out := 0, done := false, claims := 1, writes := 0, closes := 0 },
      { in_ := 3, out := 0, done := false, claims := 0, writes := 0, closes := 0 }],
    internalInput := { buf := [2], cap := 1, closed := false },
    internalOutput := { buf := [1], cap := 1, closed := false },
    feeder := FeederPc.sendOut 2,
    feederIt := { closed := false },
    inputFullyDone := false,
    workers := [WorkerPc.process 1],
    flusher := FlusherPc.waitDone 0,
    flusherIt := { closed := false },
    outputFullyDone := false,
    result := none,
    panic := none,
    delivered := [1, 2, 3, 4],
    received := [1, 2, 3],
    calls := 1,
    claimed := 2,
    taken := 1 }

/-- The state reached by `stallSendActs`. -/
def stallSendState : State Nat Nat :=
  { ctxErr := none,
    input := [4],
    inputClosed := false,
    output := [],
    outputClosed := false,
    jobs := [{ in_ := 1, out := 2, done := true, claims := 1, writes := 1, closes := 1 },
      { in_ := 2, out := 0, done := false, claims := 1, writes := 0, closes := 0 },
      { in_ := 3, out := 0, done := false, claims := 0, writes := 0, closes := 0 }],
    internalInput := { buf := [2], cap := 1, closed := false },
    internalOutput := { buf := [1], cap := 1, closed := false },
    feeder := FeederPc.sendOut 2,
    feederIt := { closed := false },
    inputFullyDone := false,
    workers := [WorkerPc.process 1],
    flusher := FlusherPc.send 0,
    flusherIt := { closed := false },
    outputFullyDone := false,
    result := none,
    panic := none,
    delivered := [1, 2, 3, 4],
    received := [1, 2, 3],
    calls := 1,
    claimed := 2,
    taken := 1 }

/-- The state reached by `zeroItemActs`. -/
def zeroItemFinal : State Nat Nat :=
  { ctxErr := some CtxErr.DeadlineExceeded,
    input := [],
    inputClosed := false,
    output := [],
    outputClosed := false,
    jobs := [{ in_ := 7, out := 0, done := false, claims := 0, writes := 0, closes := 0 }],
    internalInput := { buf := [0], cap := 1, closed := true },
    internalOutput := { buf := [], cap := 1, closed := true },
    feeder := FeederPc.done,
    feederIt := { closed := false },
    inputFullyDone := false,
    workers := [],
    flusher := FlusherPc.done,
    flusherIt := { closed := false },
    outputFullyDone := false,
    result := some (some CtxErr.DeadlineExceeded),
    panic := none,
    delivered := [7],
    received := [7],
    calls := 0,
    claimed := 0,
    taken := 1 }

/-- The state reached by `emptyActs`. -/
def emptyFinal : State Nat Nat :=
  { ctxErr := none,
    input := [],
    inputClosed := true,
    output := [],
    outputClosed := false,
    jobs := [],
    internalInput := { buf := [], cap := 1, closed := true },
    internalOutput := { buf := [], cap := 1, closed := true },
    feeder := FeederPc.done,
    feederIt := { closed := true },
    inputFullyDone := true,
    workers := [WorkerPc.done],
    flusher := FlusherPc.done,
    flusherIt := { closed := true },
    outputFullyDone := true,
    result := some none,
    panic := none,
    delivered := [],
    received := [],
    calls := 0,
    claimed := 0,
    taken := 0 }

end Util

namespace Metrics

/-! ## Properties of the reducers -/

theorem sumReducer_reduce_state (r : SumReducer) : r.Reduce.2 = NewSumReducer := rfl

/-- After `Reduce`, a `SumReducer` is in the state of a new one. -/
theorem sumReducer_reduce_resets (us vs : List ℚ) :
    ((NewSumReducer.addAll us).Reduce.2.addAll vs).Reduce = (NewSumReducer.addAll vs).Reduce := by
  rw [sumReducer_reduce_state]

/-- Adding to an `OverrideReducer` without a value is adding to a new one. -/
theorem overrideReducer_addAll_cons_of_empty (r : OverrideReducer) (v : ℚ) (vs : List ℚ)
    (h : r.hasValue = false) :
    r.addAll (v :: vs) = NewOverrideReducer.addAll (v :: vs) := by
  simp [OverrideReducer.addAll, OverrideReducer.AddValue, NewOverrideReducer]

/-- An `OverrideReducer` without a value returns `(0, false)`. -/
theorem overrideReducer_reduce_of_empty (r : OverrideReducer) (h : r.hasValue = false) :
    r.Reduce.1 = (0, false) := by
  simp [OverrideReducer.Reduce, h]

/-- After `Reduce` an `OverrideReducer` has no value. -/
theorem overrideReducer_reduce_hasValue (r : OverrideReducer) : r.Reduce.2.hasValue = false := by
  unfold OverrideReducer.Reduce
  split <;> simp_all

/-- After `Reduce`, an `OverrideReducer` gives the same results as a new one. -/
theorem overrideReducer_reduce_resets (us vs : List ℚ) :
    ((NewOverrideReducer.addAll us).Reduce.2.addAll vs).Reduce.1 =
      (NewOverrideReducer.addAll vs).Reduce.1 := by
  have h := overrideReducer_reduce_hasValue (NewOverrideReducer.addAll us)
  cases vs with
  | nil =>
    exact (overrideReducer_reduce_of_empty _ h).trans (overrideReducer_reduce_of_empty _ rfl).symm
  | cons v rest => rw [overrideReducer_addAll_cons_of_empty _ v rest h]

/-- Adding to a `MinReducer` without a value is adding to a new one. -/
theorem minReducer_addAll_cons_of_empty (r : MinReducer) (v : ℚ) (vs : List ℚ)
    (h : r.hasValue = false) : r.addAll (v :: vs) = NewMinReducer.addAll (v :: vs) := by
  simp [MinReducer.addAll, MinReducer.AddValue, NewMinReducer, h]

/-- A `MinReducer` without a value returns `(0, false)`. -/
theorem minReducer_reduce_of_empty (r : MinReducer) (h : r.hasValue = false) :
    r.Reduce.1 = (0, false) := by
  simp [MinReducer.Reduce, h]

/-- After `Reduce` a `MinReducer` has no value. -/
theorem minReducer_reduce_hasValue (r : MinReducer) : r.Reduce.2.hasValue = false := by
  unfold MinReducer.Reduce
  split <;> simp_all

/-- After `Reduce`, a `MinReducer` gives the same results as a new one. -/
theorem minReducer_reduce_resets (us vs : List ℚ) :
    ((NewMinReducer.addAll us).Reduce.2.addAll vs).Reduce.1 = (NewMinReducer.addAll vs).Reduce.1 := by
  have h := minReducer_reduce_hasValue (NewMinReducer.addAll us)
  cases vs with
  | nil =>
    exact (minReducer_reduce_of_empty _ h).trans (minReducer_reduce_of_empty _ rfl).symm
  | cons v rest => rw [minReducer_addAll_cons_of_empty _ v rest h]

/-- Adding to a `MaxReducer` without a value is adding to a new one. -/
theorem maxReducer_addAll_cons_of_empty (r : MaxReducer) (v : ℚ) (vs : List ℚ)
    (h : r.hasValue = false) : r.addAll (v :: vs) = NewMaxReducer.addAll (v :: vs) := by
  simp [MaxReducer.addAll, MaxReducer.AddValue, NewMaxReducer, h]

/-- A `MaxReducer` without a value returns `(0, false)`. -/
theorem maxReducer_reduce_of_empty (r : MaxReducer) (h : r.hasValue = false) :
    r.Reduce.1 = (0, false) := by
  simp [MaxReducer.Reduce, h]

/-- After `Reduce` a `MaxReducer` has no value. -/
theorem maxReducer_reduce_hasValue (r : MaxReducer) : r.Reduce.2.hasValue = false := by
  unfold MaxReducer.Reduce
  split <;> simp_all

/-- After `Reduce`, a `MaxReducer` gives the same results as a new one. -/
theorem maxReducer_reduce_resets (us vs : List ℚ) :
    ((NewMaxReducer.addAll us).Reduce.2.addAll vs).Reduce.1 = (NewMaxReducer.addAll vs).Reduce.1 := by
  have h := maxReducer_reduce_hasValue (NewMaxReducer.addAll us)
  cases vs with
  | nil =>
    exact (maxReducer_reduce_of_empty _ h).trans (maxReducer_reduce_of_empty _ rfl).symm
  | cons v rest => rw [maxReducer_addAll_cons_of_empty _ v rest h]

/-- The field `sum` of a `SumReducer` after a run of `AddValue` calls. -/
theorem sumReducer_addAll_sum (r : SumReducer) (vs : List ℚ) :
    (r.addAll vs).sum = r.sum + vs.sum := by
  induction vs generalizing r with
  | nil => simp [SumReducer.addAll]
  | cons v rest ih =>
    have h := ih (r.AddValue v)
    simp only [SumReducer.addAll, List.foldl_cons, List.sum_cons] at h ⊢
    rw [h]
    simp only [SumReducer.AddValue]
    ring

/-- A `SumReducer` returns the sum of the values added since it was made. -/
theorem sumReducer_reduce_value (vs : List ℚ) :
    (NewSumReducer.addAll vs).Reduce.1 = (vs.sum, true) := by
  simp [SumReducer.Reduce, sumReducer_addAll_sum, NewSumReducer]

/-- An `OverrideReducer` returns the last of the values added since it was made. -/
theorem overrideReducer_reduce_value (vs : List ℚ) :
    (NewOverrideReducer.addAll vs).Reduce.1 =
      match vs.getLast? with
      | some v => (v, true)
      | none => (0, false) := by
  rcases List.eq_nil_or_concat vs with h | ⟨init, v, h⟩
  · subst h; rfl
  · subst h
    simp [OverrideReducer.addAll, List.foldl_append, OverrideReducer.AddValue,
      OverrideReducer.Reduce]

/-- The fields of an `AvgReducer` after a run of `AddValue` calls. -/
theorem avgReducer_addAll_state (r : AvgReducer) (vs : List ℚ) (hc : r.count < 2 ^ 64) :
    (r.addAll vs).sum = r.sum + vs.sum ∧
    (r.addAll vs).count = (r.count + vs.length) % 2 ^ 64 := by
  induction vs generalizing r with
  | nil =>
    simp only [AvgReducer.addAll, List.foldl_nil, List.sum_nil, add_zero, List.length_nil,
      Nat.add_zero, true_and]
    exact (Nat.mod_eq_of_lt hc).symm
  | cons v rest ih =>
    have hc1 : (r.AddValue v).count < 2 ^ 64 := Nat.mod_lt _ (by norm_num)
    obtain ⟨h1, h2⟩ := ih (r.AddValue v) hc1
    simp only [AvgReducer.addAll, List.foldl_cons, List.sum_cons, List.length_cons] at h1 h2 ⊢
    rw [h1, h2]
    simp only [AvgReducer.AddValue]
    constructor
    · ring
    · norm_num
      omega

/-- A new `AvgReducer` returns the average of the values added to it, as long as fewer than
`2 ^ 64` values were added. -/
theorem avgReducer_reduce_value (vs : List ℚ) (h0 : vs ≠ []) (hlen : vs.length < 2 ^ 64) :
    (NewAvgReducer.addAll vs).Reduce.1 = (vs.sum / (vs.length : ℚ), true) := by
  obtain ⟨h1, h2⟩ := avgReducer_addAll_state NewAvgReducer vs (by norm_num [NewAvgReducer])
  have hpos : 0 < vs.length := List.length_pos.mpr h0
  have h3 : (NewAvgReducer.addAll vs).count = vs.length := by
    rw [h2]
    simp only [NewAvgReducer, Nat.zero_add]
    exact Nat.mod_eq_of_lt hlen
  have h4 : (NewAvgReducer.addAll vs).count ≠ 0 := by omega
  unfold AvgReducer.Reduce
  rw [if_neg h4]
  simp only [h1, h3]
  simp [NewAvgReducer]

/-- A `MaxReducer` with a value, after a run of `AddValue` calls. -/
theorem maxReducer_addAll_of_hasValue (r : MaxReducer) (vs : List ℚ) (h : r.hasValue = true) :
    r.addAll vs = { max := vs.foldl max r.max, hasValue := true } := by
  induction vs generalizing r with
  | nil => cases r; simp_all [MaxReducer.addAll]
  | cons v rest ih =>
    have h1 : (r.AddValue v).hasValue = true := rfl
    have h2 := ih (r.AddValue v) h1
    simp only [MaxReducer.addAll, List.foldl_cons] at h2 ⊢
    rw [h2]
    have h3 : (r.AddValue v).max = max r.max v := by
      simp only [MaxReducer.AddValue, h, Bool.not_true, Bool.false_or, max_def]
      by_cases hlt : v > r.max
      · simp [hlt, le_of_lt hlt]
      · have hle : v ≤ r.max := not_lt.mp hlt
        by_cases heq : r.max ≤ v
        · have : v = r.max := le_antisymm hle heq
          simp [this]
        · simp [hlt, heq]
    rw [h3]

/-- A `MaxReducer` returns the maximum of the values added since it was made. -/
theorem maxReducer_reduce_value (vs : List ℚ) :
    (NewMaxReducer.addAll vs).Reduce.1 =
      match vs.max? with
      | some m => (m, true)
      | none => (0, false) := by
  cases vs with
  | nil => rfl
  | cons v rest =>
    have h : NewMaxReducer.addAll (v :: rest) = (NewMaxReducer.AddValue v).addAll rest := rfl
    rw [h, maxReducer_addAll_of_hasValue _ _ rfl]
    simp [MaxReducer.Reduce, List.max?, NewMaxReducer, MaxReducer.AddValue]

/-- A `MinReducer` with a value, after a run of `AddValue` calls. -/
theorem minReducer_addAll_of_hasValue (r : MinReducer) (vs : List ℚ) (h : r.hasValue = true) :
    r.addAll vs = { min := vs.foldl min r.min, hasValue := true } := by
  induction vs generalizing r with
  | nil => cases r; simp_all [MinReducer.addAll]
  | cons v rest ih =>
    have h1 : (r.AddValue v).hasValue = true := rfl
    have h2 := ih (r.AddValue v) h1
    simp only [MinReducer.addAll, List.foldl_cons] at h2 ⊢
    rw [h2]
    have h3 : (r.AddValue v).min = min r.min v := by
      simp only [MinReducer.AddValue, h, Bool.not_true, Bool.false_or, min_def]
      by_cases hlt : v < r.min
      · simp [hlt, not_le.mpr hlt]
      · simp [hlt, not_lt.mp hlt]
    rw [h3]

/-- A `MinReducer` returns the minimum of the values added since it was made. -/
theorem minReducer_reduce_value (vs : List ℚ) :
    (NewMinReducer.addAll vs).Reduce.1 =
      match vs.min? with
      | some m => (m, true)
      | none => (0, false) := by
  cases vs with
  | nil => rfl
  | cons v rest =>
    have h : NewMinReducer.addAll (v :: rest) = (NewMinReducer.AddValue v).addAll rest := rfl
    rw [h, minReducer_addAll_of_hasValue _ _ rfl]
    simp [MinReducer.Reduce, List.min?, NewMinReducer, MinReducer.AddValue]

/-- The method `AvgReducer.Reduce` leaves `sum` as it is: after a `Reduce` that returned a value the
reducer holds the old sum with `count = 0`. -/
theorem avgReducer_reduce_keeps_sum (r : AvgReducer) : r.Reduce.2.sum = r.sum := by
  unfold AvgReducer.Reduce
  split <;> rfl

/-- C8. `AvgReducer` at the input "add 2, Reduce, add 4, Reduce": the second `Reduce` returns
`(6, true)`, while a new `AvgReducer` given only 4 returns `(4, true)`.  `Reduce` resets
`count` but not `sum`, so the reducer does not behave as a newly constructed one. -/
theorem avgReducer_reduce_does_not_reset :
    ((NewAvgReducer.addAll [2]).Reduce.2.addAll [4]).Reduce.1 = (6, true) ∧
    (NewAvgReducer.addAll [4]).Reduce.1 = (4, true) ∧
    (NewAvgReducer.addAll [2]).Reduce.2 ≠ NewAvgReducer := by
  refine ⟨?_, ?_, ?_⟩
  · simp [AvgReducer.addAll, AvgReducer.AddValue, AvgReducer.Reduce, NewAvgReducer]
    norm_num
  · simp [AvgReducer.addAll, AvgReducer.AddValue, AvgReducer.Reduce, NewAvgReducer]
  · simp [AvgReducer.addAll, AvgReducer.AddValue, AvgReducer.Reduce, NewAvgReducer]

/-- C9. Two inputs at which `Reduce` does not return what is documented.  A new `SumReducer`
to which nothing was added returns `(0, true)`, not `(0, false)`; and an `AvgReducer` to
which 4 was added after a previous `Reduce` (of the single value 2) returns `(6, true)`, which
is not the average of the values added since then. -/
theorem sumReducer_reduce_nothing_added :
    NewSumReducer.Reduce.1 = (0, true) ∧
    ((NewSumReducer.addAll [3]).Reduce.2.addAll []).Reduce.1 = (0, true) ∧
    ((NewAvgReducer.addAll [2]).Reduce.2.addAll [4]).Reduce.1 = (6, true) := by
  refine ⟨rfl, rfl, ?_⟩
  simp [AvgReducer.addAll, AvgReducer.AddValue, AvgReducer.Reduce, NewAvgReducer]
  norm_num

/-- With nothing added since construction or the previous `Reduce`, the four reducers that
track presence return `(0, false)`. -/
theorem reduce_nothing_added (us : List ℚ) :
    NewOverrideReducer.Reduce.1 = (0, false) ∧ NewAvgReducer.Reduce.1 = (0, false) ∧
    NewMinReducer.Reduce.1 = (0, false) ∧ NewMaxReducer.Reduce.1 = (0, false) ∧
    (NewOverrideReducer.addAll us).Reduce.2.Reduce.1 = (0, false) ∧
    (NewMinReducer.addAll us).Reduce.2.Reduce.1 = (0, false) ∧
    (NewMaxReducer.addAll us).Reduce.2.Reduce.1 = (0, false) := by
  refine ⟨rfl, rfl, rfl, rfl, ?_, ?_, ?_⟩
  · exact overrideReducer_reduce_of_empty _ (overrideReducer_reduce_hasValue _)
  · exact minReducer_reduce_of_empty _ (minReducer_reduce_hasValue _)
  · exact maxReducer_reduce_of_empty _ (maxReducer_reduce_hasValue _)

end Metrics

namespace Util

/-! ## Properties of `ChanIterator` -/

/-- On a newly constructed adapter `Closed()` returns `false`. -/
theorem newChanIterator_closed : NewChanIterator.Closed = false := rfl

/-- The flag after one call of `Iterate`: set if the sequence ended by closure of the source,
unchanged otherwise. -/
theorem iterate_closed_field {T σ : Type} (yield : σ → T → σ × Bool)
    {it it1 : ChanIterator} {c c1 : σ} {obs : List (Obs T)} {e : Ended}
    (h : ChanIterator.Iterate yield it c obs = some (it1, c1, e)) :
    (e = Ended.sourceClosed → it1.closed = true) ∧
    (e ≠ Ended.sourceClosed → it1.closed = it.closed) := by
  induction obs generalizing c with
  | nil => simp [ChanIterator.Iterate] at h
  | cons o rest ih =>
    cases o with
    | errNonNil =>
      simp only [ChanIterator.Iterate, Option.some.injEq, Prod.mk.injEq] at h
      obtain ⟨h1, _, h3⟩ := h
      subst h1 h3
      simp
    | select sel =>
      cases sel with
      | ctxDone =>
        simp only [ChanIterator.Iterate, Option.some.injEq, Prod.mk.injEq] at h
        obtain ⟨h1, _, h3⟩ := h
        subst h1 h3
        simp
      | recvClosed =>
        simp only [ChanIterator.Iterate, Option.some.injEq, Prod.mk.injEq] at h
        obtain ⟨h1, _, h3⟩ := h
        subst h1 h3
        simp
      | recv v =>
        simp only [ChanIterator.Iterate] at h
        split at h
        · simp only [Option.some.injEq, Prod.mk.injEq] at h
          obtain ⟨h1, _, h3⟩ := h
          subst h1 h3
          simp
        · exact ih h

/-- The flag after a run of calls of `Iterate`: set exactly when it was set before or one of
the sequences ended by closure of the source. -/
theorem iterateAll_closed_field {T σ : Type}
    (calls : List ((σ → T → σ × Bool) × List (Obs T))) :
    ∀ {it it1 : ChanIterator} {c c1 : σ} {ends : List Ended},
      ChanIterator.iterateAll it c calls = some (it1, c1, ends) →
      (it1.closed = true ↔ (it.closed = true ∨ Ended.sourceClosed ∈ ends)) := by
  induction calls with
  | nil =>
    intro it it1 c c1 ends h
    simp only [ChanIterator.iterateAll, Option.some.injEq, Prod.mk.injEq] at h
    obtain ⟨h1, _, h3⟩ := h
    subst h1 h3
    simp
  | cons call rest ih =>
    intro it it1 c c1 ends h
    obtain ⟨yield, obs⟩ := call
    simp only [ChanIterator.iterateAll] at h
    split at h
    · simp at h
    · next it2 c2 e hcall =>
      split at h
      · simp at h
      · next it3 c3 es hrest =>
        simp only [Option.some.injEq, Prod.mk.injEq] at h
        obtain ⟨h1, _, h3⟩ := h
        subst h1 h3
        have hone := iterate_closed_field yield hcall
        have hall := ih hrest
        rw [hall, List.mem_cons]
        by_cases he : e = Ended.sourceClosed
        · have := hone.1 he
          subst he
          simp [this]
        · have := hone.2 he
          rw [this]
          constructor
          · rintro (h4 | h4)
            · exact Or.inl h4
            · exact Or.inr (Or.inr h4)
          · rintro (h4 | h4 | h4)
            · exact Or.inl h4
            · exact absurd h4.symm he
            · exact Or.inr h4

/-- C7 (as the code has it). For every adapter and every call of `Iterate` on it: after the
sequence has ended, `Closed()` is true if the sequence ended because the source channel was
closed; if it ended because `ctx` was cancelled or the consumer stopped, `Closed()` is what it
was before the call.  On a newly constructed adapter that is `false`, so there `Closed()` is
true exactly when the sequence ended by closure.  On an adapter that was constructed and then
used for any number of earlier calls, `Closed()` before the call is true exactly when one of
the earlier sequences ended by closure, and `Closed()` after the call is true exactly when
this sequence or one of the earlier ones ended by closure. -/
theorem chanIterator_closed_after_iterate {T σ : Type} (yield : σ → T → σ × Bool)
    (it it1 : ChanIterator) (c c1 : σ) (obs : List (Obs T)) (e : Ended)
    (h : ChanIterator.Iterate yield it c obs = some (it1, c1, e)) :
    (e = Ended.sourceClosed → it1.Closed = true) ∧
    (e ≠ Ended.sourceClosed → it1.Closed = it.Closed) ∧
    (it = NewChanIterator → (it1.Closed = true ↔ e = Ended.sourceClosed)) ∧
    (it = NewChanIterator → e ≠ Ended.sourceClosed → it1.Closed = false) ∧
    (∀ (c0 : σ) (calls : List ((σ → T → σ × Bool) × List (Obs T))) (ends : List Ended),
      ChanIterator.iterateAll NewChanIterator c0 calls = some (it, c, ends) →
        (it.Closed = true ↔ Ended.sourceClosed ∈ ends) ∧
        (it1.Closed = true ↔ (e = Ended.sourceClosed ∨ Ended.sourceClosed ∈ ends))) := by
  obtain ⟨h1, h2⟩ := iterate_closed_field yield h
  refine ⟨h1, h2, ?_, ?_, ?_⟩
  · intro hnew
    subst hnew
    constructor
    · intro hc
      by_contra hne
      have := h2 hne
      rw [ChanIterator.Closed] at hc
      rw [hc] at this
      exact Bool.noConfusion this
    · exact h1
  · intro hnew hne
    subst hnew
    exact h2 hne
  · intro c0 calls ends hprev
    have hp := iterateAll_closed_field calls hprev
    have hbefore : it.Closed = true ↔ Ended.sourceClosed ∈ ends := by
      rw [ChanIterator.Closed, hp]
      constructor
      · rintro (h4 | h4)
        · exact Bool.noConfusion h4
        · exact h4
      · exact Or.inr
    refine ⟨hbefore, ?_⟩
    by_cases he : e = Ended.sourceClosed
    · exact ⟨fun _ => Or.inl he, fun _ => h1 he⟩
    · have h3 : it1.Closed = it.Closed := h2 he
      rw [h3, hbefore]
      exact ⟨Or.inr, fun h4 => h4.resolve_left he⟩

/-- C7 fails as stated at a second call on the same adapter.  The first sequence on a new
adapter yields `5` and ends because the source is closed; the second call is made with a
`ctx` that is already done, so its sequence ends at once because of the cancellation, and
`Closed()` returns `true`, not `false`.  (On a new adapter the same cancelled call leaves
`Closed()` at `false`.) -/
theorem chanIterator_closed_stays_true :
    (ChanIterator.iterateAll NewChanIterator ([] : List Nat)
        [(collectAll, [Obs.select (Select.recv 5), Obs.select Select.recvClosed]),
         (collectAll, [Obs.errNonNil])]).map (fun r => (r.1.Closed, r.2.1, r.2.2)) =
      some (true, [5], [Ended.sourceClosed, Ended.cancelled]) ∧
    (ChanIterator.Iterate collectAll { closed := true } ([5] : List Nat)
        [Obs.errNonNil]).map (fun r => (r.1.Closed, r.2.2)) =
      some (true, Ended.cancelled) ∧
    (ChanIterator.Iterate collectAll NewChanIterator ([] : List Nat)
        [Obs.errNonNil]).map (fun r => (r.1.Closed, r.2.2)) =
      some (false, Ended.cancelled) := by
  decide

/-- C7 (as the code has it) at a first sequence on a new adapter that is cut short by the
consumer at its second value: `Closed()` is `false` afterwards. -/
theorem chanIterator_closed_after_iterate_witness :
    ChanIterator.Iterate stopAtSecond NewChanIterator 0
        [Obs.select (Select.recv 5), Obs.select (Select.recv 6), Obs.select (Select.recv 7)] =
      some (NewChanIterator, 2, Ended.consumerStopped) ∧
    NewChanIterator.Closed = false ∧
    ((Ended.consumerStopped = Ended.sourceClosed → NewChanIterator.Closed = true) ∧
     (Ended.consumerStopped ≠ Ended.sourceClosed →
       NewChanIterator.Closed = NewChanIterator.Closed) ∧
     (NewChanIterator = NewChanIterator →
       (NewChanIterator.Closed = true ↔ Ended.consumerStopped = Ended.sourceClosed)) ∧
     (NewChanIterator = NewChanIterator → Ended.consumerStopped ≠ Ended.sourceClosed →
       NewChanIterator.Closed = false) ∧
     (∀ (c0 : Nat) (calls : List ((Nat → Nat → Nat × Bool) × List (Obs Nat)))
        (ends : List Ended),
      ChanIterator.iterateAll NewChanIterator c0 calls = some (NewChanIterator, 0, ends) →
        (NewChanIterator.Closed = true ↔ Ended.sourceClosed ∈ ends) ∧
        (NewChanIterator.Closed = true ↔
          (Ended.consumerStopped = Ended.sourceClosed ∨ Ended.sourceClosed ∈ ends)))) :=
  ⟨by decide, by decide,
   chanIterator_closed_after_iterate stopAtSecond NewChanIterator NewChanIterator 0 2
     [Obs.select (Select.recv 5), Obs.select (Select.recv 6), Obs.select (Select.recv 7)]
     Ended.consumerStopped (by decide)⟩

end Util

namespace Util

/-! ## Invariants of `ProcessInParallel` -/

section Invariants

variable {A B : Type} [Inhabited B]

/-- The empty queue is consecutive. -/
theorem Consec.nil (t : Nat) : Consec t [] := by simp [Consec]

/-- The oldest element of a consecutive queue is its starting index. -/
theorem Consec.head {j t : Nat} {rest : List Nat} (h : Consec t (j :: rest)) : j = t := by
  unfold Consec at h
  rw [List.length_cons, List.range'_succ] at h
  exact (List.cons.inj h).1

/-- Receiving from a consecutive queue leaves a consecutive queue. -/
theorem Consec.tail {j t : Nat} {rest : List Nat} (h : Consec t (j :: rest)) :
    Consec (t + 1) rest := by
  unfold Consec at h
  rw [List.length_cons, List.range'_succ] at h
  exact (List.cons.inj h).2

/-- Sending the next index keeps a queue consecutive. -/
theorem Consec.snoc {t j : Nat} {buf : List Nat} (h : Consec t buf) (hj : t + buf.length = j) :
    Consec t (buf ++ [j]) := by
  unfold Consec at *
  rw [List.length_append, List.length_singleton, List.range'_concat, one_mul, ← h, hj]

/-- The counting invariant holds at the start of the call. -/
theorem InvQ.q_init (cfg : Config A B) (st : Start A) : InvQ cfg (init cfg st) := by
  constructor <;> simp [Util.init, Chan.empty, Consec.nil]

/-- Every move of the feeder keeps the counting invariant. -/
theorem InvQ.q_feederStep {cfg : Config A B} {s s1 : State A B} {v : Bool}
    (h : InvQ cfg s) (hs : feederStep s v = some s1) : InvQ cfg s1 := by
  obtain ⟨h1, h2, h3, h4, h5, h6, h7, h8, h9, h10, h11, h12, h13, h14, h15, h16, h17, h18, h19,
    h20, h21⟩ := h
  cases s
  rename_i ctxErr input inputClosed output outputClosed jobs iA iB fd fit ifd ws fl flit ofd
    res pn dl rc calls claimed taken
  cases iA
  cases iB
  simp only at h1 h2 h3 h4 h5 h6 h7 h8 h9 h10 h11 h12 h13 h14 h15 h16 h17 h18 h19 h20 h21
  unfold Util.feederStep at hs
  cases fd <;> cases v <;> simp only [reduceCtorEq] at hs
  all_goals (repeat' split at hs)
  all_goals simp only [Option.some.injEq, reduceCtorEq] at hs
  all_goals subst hs
  all_goals try subst fd
  all_goals try simp only [List.length_cons, List.length_nil] at h4 h5 h8 h9 h10 h11 h12 h13 h14
  all_goals try simp at h12 h13 h14 h15 h16
  all_goals try simp at h17 h18 h19
  all_goals try have hd6 := Consec.head h6
  all_goals try have hd7 := Consec.head h7
  all_goals constructor
  all_goals try simp
  all_goals first
    | assumption
    | omega
    | exact Consec.snoc (by assumption) (by omega)
    | exact Consec.tail (by assumption)
    | (intro hp; have hq := h12 hp; omega)
    | (intro j hp; have hq := h13 j hp; omega)
    | (intro j hp; have hq := h14 j hp; omega)
    | (intro hp; have hq := h17 hp; omega)
    | (intro j hp; have hq := h18 j hp; omega)
    | (intro j hp; have hq := h19 j hp; omega)
    | simp_all

/-- Every move of a worker keeps the counting invariant. -/
theorem InvQ.q_workerStep {cfg : Config A B} {s s1 : State A B} {i : Nat} {v : Bool}
    (h : InvQ cfg s) (hs : workerStep cfg s i v = some s1) : InvQ cfg s1 := by
  obtain ⟨h1, h2, h3, h4, h5, h6, h7, h8, h9, h10, h11, h12, h13, h14, h15, h16, h17, h18, h19,
    h20, h21⟩ := h
  cases s
  rename_i ctxErr input inputClosed output outputClosed jobs iA iB fd fit ifd ws fl flit ofd
    res pn dl rc calls claimed taken
  cases iA
  cases iB
  simp only at h1 h2 h3 h4 h5 h6 h7 h8 h9 h10 h11 h12 h13 h14 h15 h16 h17 h18 h19 h20 h21
  unfold Util.workerStep at hs
  simp only at hs
  all_goals (repeat' split at hs)
  all_goals simp only [Option.some.injEq, reduceCtorEq] at hs
  all_goals subst hs
  all_goals try subst fd
  all_goals try simp only [List.length_cons, List.length_nil] at h4 h5 h8 h9 h10 h11 h12 h13 h14
  all_goals try simp at h12 h13 h14 h15 h16
  all_goals try simp at h17 h18 h19
  all_goals try have hd6 := Consec.head h6
  all_goals try have hd7 := Consec.head h7
  all_goals constructor
  all_goals try simp
  all_goals first
    | assumption
    | omega
    | exact Consec.snoc (by assumption) (by omega)
    | exact Consec.tail (by assumption)
    | (intro hp; have hq := h12 hp; omega)
    | (intro j hp; have hq := h13 j hp; omega)
    | (intro j hp; have hq := h14 j hp; omega)
    | (intro hp; have hq := h17 hp; omega)
    | (intro j hp; have hq := h18 j hp; omega)
    | (intro j hp; have hq := h19 j hp; omega)
    | simp_all

/-- Every move of the flusher keeps the counting invariant. -/
theorem InvQ.q_flusherStep {cfg : Config A B} {s s1 : State A B} {v : Bool}
    (h : InvQ cfg s) (hs : flusherStep s v = some s1) : InvQ cfg s1 := by
  obtain ⟨h1, h2, h3, h4, h5, h6, h7, h8, h9, h10, h11, h12, h13, h14, h15, h16, h17, h18, h19,
    h20, h21⟩ := h
  cases s
  rename_i ctxErr input inputClosed output outputClosed jobs iA iB fd fit ifd ws fl flit ofd
    res pn dl rc calls claimed taken
  cases iA
  cases iB
  simp only at h1 h2 h3 h4 h5 h6 h7 h8 h9 h10 h11 h12 h13 h14 h15 h16 h17 h18 h19 h20 h21
  unfold Util.flusherStep at hs
  cases fl <;> cases v <;> simp only [reduceCtorEq] at hs
  all_goals (repeat' split at hs)
  all_goals simp only [Option.some.injEq, reduceCtorEq] at hs
  all_goals subst hs
  all_goals try subst fd
  all_goals try simp only [List.length_cons, List.length_nil] at h4 h5 h8 h9 h10 h11 h12 h13 h14
  all_goals try simp at h12 h13 h14 h15 h16
  all_goals try simp at h17 h18 h19
  all_goals try have hd6 := Consec.head h6
  all_goals try have hd7 := Consec.head h7
  all_goals constructor
  all_goals try simp
  all_goals first
    | assumption
    | omega
    | exact Consec.snoc (by assumption) (by omega)
    | exact Consec.tail (by assumption)
    | (intro hp; have hq := h12 hp; omega)
    | (intro j hp; have hq := h13 j hp; omega)
    | (intro j hp; have hq := h14 j hp; omega)
    | (intro hp; have hq := h17 hp; omega)
    | (intro j hp; have hq := h18 j hp; omega)
    | (intro j hp; have hq := h19 j hp; omega)
    | simp_all

/-- Returning from the call keeps the counting invariant. -/
theorem InvQ.q_waitStep {cfg : Config A B} {s s1 : State A B}
    (h : InvQ cfg s) (hs : waitStep s = some s1) : InvQ cfg s1 := by
  unfold Util.waitStep at hs
  split at hs
  · simp only [Option.some.injEq] at hs
    subst hs
    exact ⟨h.1, h.2, h.3, h.4, h.5, h.6, h.7, h.8, h.9, h.10, h.11, h.12, h.13, h.14, h.15, h.16,
      h.17, h.18, h.19, h.20, h.21⟩
  · simp at hs

/-- Every move keeps the counting invariant. -/
theorem InvQ.q_step {cfg : Config A B} {s s1 : State A B} {a : Action A}
    (h : InvQ cfg s) (hs : step cfg s a = some s1) : InvQ cfg s1 := by
  unfold Util.step at hs
  split at hs
  · simp at hs
  · cases a with
    | send x =>
      simp only at hs
      split at hs
      · simp at hs
      · simp only [Option.some.injEq] at hs
        subst hs
        exact ⟨h.1, h.2, h.3, h.4, h.5, h.6, h.7, h.8, h.9, h.10, h.11, h.12, h.13, h.14, h.15,
          h.16, h.17, h.18, h.19, h.20, h.21⟩
    | closeInput =>
      simp only at hs
      split at hs
      · simp at hs
      · simp only [Option.some.injEq] at hs
        subst hs
        exact ⟨h.1, h.2, h.3, h.4, h.5, h.6, h.7, h.8, h.9, h.10, h.11, h.12, h.13, h.14, h.15,
          h.16, h.17, h.18, h.19, h.20, h.21⟩
    | cancel e =>
      simp only at hs
      split at hs
      · simp only [Option.some.injEq] at hs
        subst hs
        exact ⟨h.1, h.2, h.3, h.4, h.5, h.6, h.7, h.8, h.9, h.10, h.11, h.12, h.13, h.14, h.15,
          h.16, h.17, h.18, h.19, h.20, h.21⟩
      · simp at hs
    | feeder v => exact h.q_feederStep hs
    | worker i v => exact h.q_workerStep hs
    | flusher v => exact h.q_flusherStep hs
    | wait => exact h.q_waitStep hs

/-- Every schedule keeps the counting invariant. -/
theorem InvQ.q_exec {cfg : Config A B} {acts : List (Action A)} :
    ∀ {s s1 : State A B}, InvQ cfg s → exec cfg s acts = some s1 → InvQ cfg s1 := by
  induction acts with
  | nil =>
    intro s s1 h hs
    simp only [Util.exec, Option.some.injEq] at hs
    exact hs ▸ h
  | cons a rest ih =>
    intro s s1 h hs
    simp only [Util.exec] at hs
    split at hs
    · next s2 h2 => exact ih (h.q_step h2) hs
    · simp at hs

/-- The counting invariant holds in every reachable state. -/
theorem InvQ.q_reachable {cfg : Config A B} {st : Start A} {s : State A B}
    (h : Reachable cfg st s) : InvQ cfg s := by
  obtain ⟨acts, hacts⟩ := h
  exact (InvQ.q_init cfg st).q_exec hacts

end Invariants

end Util

namespace Util

section StepCases

variable {A B : Type} [Inhabited B]

/-- The effect of a feeder move on the jobs, the input and the history of received items:
either it receives an item and allocates a job for it, or it leaves all of them alone. -/
theorem feederStep_cases {cfg : Config A B} {s s1 : State A B} {v : Bool} (hq : InvQ cfg s)
    (hs : feederStep s v = some s1) :
    s1.delivered = s.delivered ∧ s1.workers = s.workers ∧ s1.claimed = s.claimed ∧
    s1.flusher = s.flusher ∧ s1.output = s.output ∧ s1.panic = s.panic ∧
    ((∃ x rest, s.feeder = FeederPc.select ∧ s.input = x :: rest ∧ s1.input = rest ∧
        s1.received = s.received ++ [x] ∧
        s1.jobs = s.jobs ++ [{ in_ := x, out := default, done := false,
                               claims := 0, writes := 0, closes := 0 }]) ∨
     (s1.jobs = s.jobs ∧ s1.received = s.received ∧ s1.input = s.input)) := by
  have hB := hq.closedB
  have hA := hq.closedA
  unfold Util.feederStep at hs
  split at hs
  all_goals (repeat' split at hs)
  all_goals simp only [Option.some.injEq, reduceCtorEq] at hs
  all_goals subst hs
  all_goals simp_all
  exact ⟨_, _, ⟨rfl, rfl⟩, rfl, rfl⟩

/-- The effect of a move of worker `i` on jobs, workers and the claim counter. -/
theorem workerStep_cases {cfg : Config A B} {s s1 : State A B} {i : Nat} {v : Bool}
    (hq : InvQ cfg s) (hs : workerStep cfg s i v = some s1) :
    s1.received = s.received ∧ s1.input = s.input ∧ s1.delivered = s.delivered ∧
    s1.flusher = s.flusher ∧ s1.output = s.output ∧
    ((∃ w w1, s.workers[i]? = some w ∧ w.holds = none ∧ w1.holds = none ∧
        s1.workers = s.workers.set i w1 ∧ s1.jobs = s.jobs ∧ s1.claimed = s.claimed ∧
        s1.panic = s.panic) ∨
     (∃ job, s.workers[i]? = some WorkerPc.select ∧ s.jobs[s.claimed]? = some job ∧
        s1.workers = s.workers.set i (WorkerPc.process s.claimed) ∧
        s1.jobs = s.jobs.set s.claimed { job with claims := job.claims + 1 } ∧
        s1.claimed = s.claimed + 1 ∧ s1.panic = s.panic) ∨
     (∃ j job, s.workers[i]? = some (WorkerPc.process j) ∧ s.jobs[j]? = some job ∧
        s1.workers = s.workers.set i (WorkerPc.closeDone j) ∧
        s1.jobs = s.jobs.set j { job with out := cfg.processFn job.in_, writes := job.writes + 1 } ∧
        s1.claimed = s.claimed ∧ s1.panic = s.panic) ∨
     (∃ j job, s.workers[i]? = some (WorkerPc.closeDone j) ∧ s.jobs[j]? = some job ∧
        job.done = false ∧
        s1.workers = s.workers.set i WorkerPc.loopHead ∧
        s1.jobs = s.jobs.set j { job with done := true, closes := job.closes + 1 } ∧
        s1.claimed = s.claimed ∧ s1.panic = s.panic) ∨
     (∃ j job, s.workers[i]? = some (WorkerPc.closeDone j) ∧ s.jobs[j]? = some job ∧
        job.done = true ∧ s1.workers = s.workers ∧ s1.jobs = s.jobs ∧ s1.claimed = s.claimed ∧
        s1.panic = some Panic.closeOfClosedChannel)) := by
  have hbuf := hq.bufA
  have hin := hq.fIn
  unfold Util.workerStep at hs
  split at hs
  all_goals (repeat' split at hs)
  all_goals simp only [Option.some.injEq, reduceCtorEq] at hs
  all_goals subst hs
  all_goals refine ⟨rfl, rfl, rfl, rfl, rfl, ?_⟩
  case h_1.isTrue =>
    exact Or.inl ⟨WorkerPc.loopHead, WorkerPc.select, by assumption, rfl, rfl, rfl, rfl, rfl, rfl⟩
  case h_1.isFalse =>
    exact Or.inl ⟨WorkerPc.loopHead, WorkerPc.done, by assumption, rfl, rfl, rfl, rfl, rfl, rfl⟩
  case h_2.isFalse =>
    exact Or.inl ⟨WorkerPc.select, WorkerPc.done, by assumption, rfl, rfl, rfl, rfl, rfl, rfl⟩
  case h_3.h_2.isTrue =>
    exact Or.inl ⟨WorkerPc.select, WorkerPc.done, by assumption, rfl, rfl, rfl, rfl, rfl, rfl⟩
  case h_3.h_1.h_1 =>
    rw [‹s.internalInput.buf = _›] at hbuf
    have hj := hbuf.head
    subst hj
    exact Or.inr (Or.inl ⟨_, by assumption, by assumption, rfl, rfl, rfl, rfl⟩)
  case h_3.h_2.isFalse.h_1.h_1 =>
    have hj := (hin _ ‹s.feeder = _›).2.2
    rw [‹s.internalInput.buf = _›] at hj
    simp only [List.length_nil, Nat.add_zero] at hj
    subst hj
    exact Or.inr (Or.inl ⟨_, by assumption, by assumption, rfl, rfl, rfl, rfl⟩)
  case h_4.h_1 =>
    exact Or.inr (Or.inr (Or.inl ⟨_, _, by assumption, by assumption, rfl, rfl, rfl, rfl⟩))
  case h_5.h_1.isTrue =>
    exact Or.inr (Or.inr (Or.inr (Or.inr
      ⟨_, _, by assumption, by assumption, by assumption, rfl, rfl, rfl, rfl⟩)))
  case h_5.h_1.isFalse =>
    exact Or.inr (Or.inr (Or.inr (Or.inl
      ⟨_, _, by assumption, by assumption, Bool.eq_false_iff.mpr (by assumption), rfl, rfl, rfl, rfl⟩)))

/-- The effect of a flusher move on its program counter and on `output`. -/
theorem flusherStep_cases {s s1 : State A B} {v : Bool} (hs : flusherStep s v = some s1) :
    s1.jobs = s.jobs ∧ s1.received = s.received ∧ s1.input = s.input ∧
    s1.delivered = s.delivered ∧ s1.workers = s.workers ∧ s1.claimed = s.claimed ∧
    ((s1.output = s.output ∧ s1.panic = s.panic ∧ ∀ j, s1.flusher ≠ FlusherPc.send j) ∨
     (∃ j job, s.flusher = FlusherPc.waitDone j ∧ s.jobs[j]? = some job ∧ job.done = true ∧
        s1.flusher = FlusherPc.send j ∧ s1.output = s.output ∧ s1.panic = s.panic) ∨
     (∃ j job, s.flusher = FlusherPc.send j ∧ s.jobs[j]? = some job ∧
        s1.flusher = FlusherPc.loopHead ∧ s1.output = s.output ++ [job.out] ∧
        s1.panic = s.panic) ∨
     (s1.flusher = s.flusher ∧ s1.output = s.output ∧
        s1.panic = some Panic.sendOnClosedChannel)) := by
  unfold Util.flusherStep at hs
  split at hs
  all_goals (repeat' split at hs)
  all_goals simp only [Option.some.injEq, reduceCtorEq] at hs
  all_goals subst hs
  all_goals refine ⟨rfl, rfl, rfl, rfl, rfl, rfl, ?_⟩
  all_goals first
    | exact Or.inl ⟨rfl, rfl, fun _ hc => FlusherPc.noConfusion hc⟩
    | exact Or.inr (Or.inl ⟨_, _, by assumption, by assumption, by assumption, rfl, rfl, rfl⟩)
    | exact Or.inr (Or.inr (Or.inl ⟨_, _, by assumption, by assumption, rfl, rfl, rfl⟩))
    | exact Or.inr (Or.inr (Or.inr ⟨rfl, rfl, rfl⟩))

end StepCases

end Util

namespace Util

section JobInvariant

variable {A B : Type} [Inhabited B]

/-- A lookup after `set` finds the new element at the index set, an old one elsewhere. -/
theorem getElem?_set_cases {α : Type} {l : List α} {i k : Nat} {a b : α}
    (h : (l.set i a)[k]? = some b) : (k = i ∧ b = a) ∨ (k ≠ i ∧ l[k]? = some b) := by
  rw [List.getElem?_set] at h
  split at h
  · next hik =>
    split at h
    · exact Or.inl ⟨hik.symm, (Option.some.inj h).symm⟩
    · simp at h
  · next hik => exact Or.inr ⟨fun e => hik e.symm, h⟩

/-- A lookup away from the index set finds the old element. -/
theorem getElem?_set_other {α : Type} {l : List α} {i k : Nat} {a b : α}
    (hk : k ≠ i) (h : l[k]? = some b) : (l.set i a)[k]? = some b := by
  rw [List.getElem?_set_ne (fun e => hk e.symm)]
  exact h

/-- A lookup at the index set finds the new element. -/
theorem getElem?_set_same {α : Type} {l : List α} {i : Nat} {a b : α}
    (h : l[i]? = some b) : (l.set i a)[i]? = some a := by
  have hlt : i < l.length := (List.getElem?_eq_some.mp h).1
  rw [List.getElem?_set]
  simp [hlt]

/-- A lookup in a list with one more element at the end. -/
theorem getElem?_snoc_cases {α : Type} {l : List α} {a b : α} {k : Nat}
    (h : (l ++ [a])[k]? = some b) : l[k]? = some b ∨ (k = l.length ∧ b = a) := by
  by_cases hlt : k < l.length
  · rw [List.getElem?_append_left hlt] at h
    exact Or.inl h
  · have hk := (List.getElem?_eq_some.mp h).1
    simp only [List.length_append, List.length_singleton] at hk
    have hkl : k = l.length := by omega
    subst hkl
    simp at h
    exact Or.inr ⟨rfl, h.symm⟩

/-- What was in the list is still there after appending. -/
theorem getElem?_snoc_left {α : Type} {l : List α} {a b : α} {k : Nat}
    (h : l[k]? = some b) : (l ++ [a])[k]? = some b := by
  rw [List.getElem?_append_left (List.getElem?_eq_some.mp h).1]
  exact h

/-- The data invariant depends only on jobs, received items, workers, claim counter, output
and the flusher being about to send. -/
theorem InvJ.frame {cfg : Config A B} {s s1 : State A B} (h : InvJ cfg s)
    (e1 : s1.jobs = s.jobs) (e2 : s1.received = s.received)
    (hd : s1.received ++ s1.input = s1.delivered) (e5 : s1.workers = s.workers)
    (e6 : s1.claimed = s.claimed) (e8 : s1.output = s.output)
    (hl : ∀ j, s1.flusher = FlusherPc.send j → ∃ job, s1.jobs[j]? = some job ∧ job.done = true)
    (hp : s1.panic ≠ some Panic.closeOfClosedChannel) : InvJ cfg s1 := by
  obtain ⟨h1, _, h3, h4, h5, h6, h7, _, h9, _⟩ := h
  constructor
  · rw [e1, e2]; exact h1
  · exact hd
  · rw [e1, e6]; exact h3
  · rw [e1, e5, e6]; exact h4
  · rw [e1, e5, e6]; exact h5
  · rw [e5]; exact h6
  · rw [e5]; exact h7
  · exact hl
  · rw [e2, e8]; exact h9
  · exact hp

/-- The data invariant holds at the start of the call. -/
theorem InvJ.j_init (cfg : Config A B) (st : Start A) : InvJ cfg (init cfg st) := by
  constructor <;> simp [Util.init, List.getElem?_replicate]
  intro i k wi wk j _ h1 _ _ h3
  subst h1
  simp [WorkerPc.holds] at h3

/-- Every move of the feeder keeps the data invariant. -/
theorem InvJ.j_feederStep {cfg : Config A B} {s s1 : State A B} {v : Bool}
    (hq : InvQ cfg s) (h : InvJ cfg s) (hs : feederStep s v = some s1) : InvJ cfg s1 := by
  obtain ⟨e4, e5, e6, e7, e8, e9, hc⟩ := feederStep_cases hq hs
  rcases hc with ⟨x, rest, _, hin, e3, e2, e1⟩ | ⟨e1, e2, e3⟩
  · have hlen := hq.recvLen
    have hloA := hq.loA
    have hloB := hq.loB
    have hloT := hq.loT
    constructor
    · intro j job hj
      rw [e1] at hj
      rw [e2]
      rcases getElem?_snoc_cases hj with hj | ⟨hk, hjob⟩
      · exact getElem?_snoc_left (h.jobIn j job hj)
      · subst hk hjob
        rw [← hlen]
        simp
    · rw [e2, e3, e4, ← h.deliv, hin]
      simp
    · intro j job hj
      rw [e1] at hj
      rw [e6]
      rcases getElem?_snoc_cases hj with hj | ⟨hk, hjob⟩
      · exact h.jobOk j job hj
      · subst hk hjob
        constructor
        · show 0 = if s.jobs.length < s.claimed then 1 else 0
          rw [if_neg (by omega)]
        all_goals simp
    · intro i j hw
      rw [e5] at hw
      rw [e6, e1]
      obtain ⟨hlt, job, hjob, hw0⟩ := h.wProc i j hw
      exact ⟨hlt, job, getElem?_snoc_left hjob, hw0⟩
    · intro i j hw
      rw [e5] at hw
      rw [e6, e1]
      obtain ⟨hlt, job, hjob, hw0⟩ := h.wClose i j hw
      exact ⟨hlt, job, getElem?_snoc_left hjob, hw0⟩
    · rw [e5]; exact h.wUniq
    · rw [e5]; exact h.wLen
    · intro j hfl
      rw [e7] at hfl
      rw [e1]
      obtain ⟨job, hjob, hd⟩ := h.lSend j hfl
      exact ⟨job, getElem?_snoc_left hjob, hd⟩
    · rw [e8, e2, List.take_append_of_le_length (by omega)]
      exact h.outEq
    · rw [e9]; exact h.noPanic
  · refine h.frame e1 e2 ?_ e5 e6 e8 ?_ ?_
    · rw [e2, e3, e4]; exact h.deliv
    · rw [e1, e7]; exact h.lSend
    · rw [e9]; exact h.noPanic

/-- Every move of the flusher keeps the data invariant. -/
theorem InvJ.j_flusherStep {cfg : Config A B} {s s1 : State A B} {v : Bool}
    (hq : InvQ cfg s) (h : InvJ cfg s) (hs : flusherStep s v = some s1) : InvJ cfg s1 := by
  obtain ⟨e1, e2, e3, e4, e5, e6, hc⟩ := flusherStep_cases hs
  have hd : s1.received ++ s1.input = s1.delivered := by rw [e2, e3, e4]; exact h.deliv
  rcases hc with ⟨e8, e9, hne⟩ | ⟨j, job, _, hjob, hdone, hfl, e8, e9⟩ |
    ⟨j, job, hfl, hjob, _, e8, e9⟩ | ⟨e7, e8, e9⟩
  · refine h.frame e1 e2 hd e5 e6 e8 ?_ ?_
    · intro j hfl; exact absurd hfl (hne j)
    · rw [e9]; exact h.noPanic
  · refine h.frame e1 e2 hd e5 e6 e8 ?_ ?_
    · intro k hk
      rw [hfl] at hk
      injection hk with hk
      subst hk
      rw [e1]
      exact ⟨job, hjob, hdone⟩
    · rw [e9]; exact h.noPanic
  · obtain ⟨hjo, _⟩ := hq.lSend j hfl
    obtain ⟨job0, hjob0, hdone⟩ := h.lSend j hfl
    rw [hjob] at hjob0
    injection hjob0 with hjob0
    subst hjob0
    have hok := h.jobOk j job hjob
    have hout : job.out = cfg.processFn job.in_ := by
      apply hok.out
      have hc := hok.done.mp hdone
      have hcw := hok.closes
      omega
    have hin := h.jobIn j job hjob
    constructor
    · rw [e1, e2]; exact h.jobIn
    · exact hd
    · rw [e1, e6]; exact h.jobOk
    · rw [e1, e5, e6]; exact h.wProc
    · rw [e1, e5, e6]; exact h.wClose
    · rw [e5]; exact h.wUniq
    · rw [e5]; exact h.wLen
    · intro k hk
      rw [‹s1.flusher = FlusherPc.loopHead›] at hk
      exact FlusherPc.noConfusion hk
    · rw [e8, e2, List.length_append, List.length_singleton, List.take_succ, ← hjo, hin]
      simp only [Option.toList, List.map_append, List.map_cons, List.map_nil]
      rw [hout]
      congr 1
      have := h.outEq
      rw [← hjo] at this
      exact this
    · rw [e9]; exact h.noPanic
  · refine h.frame e1 e2 hd e5 e6 e8 ?_ ?_
    · rw [e1, e7]; exact h.lSend
    · rw [e9]; simp

/-- A job in the hands of a worker has been claimed. -/
theorem InvJ.held_lt {cfg : Config A B} {s : State A B} (h : InvJ cfg s) {k j : Nat}
    {wk : WorkerPc} (hw : s.workers[k]? = some wk) (hh : wk.holds = some j) : j < s.claimed := by
  cases wk <;> simp only [WorkerPc.holds, Option.some.injEq, reduceCtorEq] at hh
  · subst hh; exact (h.wProc k _ hw).1
  · subst hh; exact (h.wClose k _ hw).1

/-- Replacing a job by one with the same input keeps the link with the received items. -/
theorem InvJ.jobIn_set {cfg : Config A B} {s : State A B} (h : InvJ cfg s) {j : Nat}
    {job job1 : internalJob A B} (hjob : s.jobs[j]? = some job) (hin : job1.in_ = job.in_) :
    ∀ (k : Nat) (jb : internalJob A B), (s.jobs.set j job1)[k]? = some jb →
      s.received[k]? = some jb.in_ := by
  intro k jb hk
  rcases getElem?_set_cases hk with ⟨hkj, hjb⟩ | ⟨_, hold⟩
  · subst hkj hjb
    rw [hin]
    exact h.jobIn k job hjob
  · exact h.jobIn k jb hold

/-- Replacing a job by one that is done whenever the old one was keeps the flusher's
knowledge that the job it is about to forward is done. -/
theorem InvJ.lSend_set {cfg : Config A B} {s : State A B} (h : InvJ cfg s) {j : Nat}
    {job job1 : internalJob A B} (hjob : s.jobs[j]? = some job)
    (hdone : job.done = true → job1.done = true) :
    ∀ k, s.flusher = FlusherPc.send k →
      ∃ jb, (s.jobs.set j job1)[k]? = some jb ∧ jb.done = true := by
  intro k hk
  obtain ⟨jb, hjb, hd⟩ := h.lSend k hk
  by_cases hkj : k = j
  · subst hkj
    rw [hjob] at hjb
    injection hjb with hjb
    subst hjb
    exact ⟨job1, getElem?_set_same hjob, hdone hd⟩
  · exact ⟨jb, getElem?_set_other hkj hjb, hd⟩

/-- Every move of a worker keeps the data invariant; closing an already closed `done` is
excluded because a job is in the hands of one worker only. -/
theorem InvJ.j_workerStep {cfg : Config A B} {s s1 : State A B} {i : Nat} {v : Bool}
    (hq : InvQ cfg s) (h : InvJ cfg s) (hs : workerStep cfg s i v = some s1) : InvJ cfg s1 := by
  obtain ⟨e2, e3, e4, e7, e8, hc⟩ := workerStep_cases hq hs
  have hd : s1.received ++ s1.input = s1.delivered := by rw [e2, e3, e4]; exact h.deliv
  have ho : s1.output = (s1.received.take s1.output.length).map cfg.processFn := by
    rw [e2, e8]; exact h.outEq
  rcases hc with ⟨w, w1, hw, hwn, hw1n, e5, e1, e6, e9⟩ | ⟨job, hw, hjob, e5, e1, e6, e9⟩ |
    ⟨j, job, hw, hjob, e5, e1, e6, e9⟩ | ⟨j, job, hw, hjob, hnd, e5, e1, e6, e9⟩ |
    ⟨j, job, hw, hjob, hdn, e5, e1, e6, e9⟩
  · -- the worker moves between `loopHead`, `select` and `done`
    constructor
    · rw [e1, e2]; exact h.jobIn
    · exact hd
    · rw [e1, e6]; exact h.jobOk
    · intro k j hk
      rw [e5] at hk
      rw [e1, e6]
      rcases getElem?_set_cases hk with ⟨_, hjb⟩ | ⟨_, hold⟩
      · rw [← hjb] at hw1n; simp [WorkerPc.holds] at hw1n
      · exact h.wProc k j hold
    · intro k j hk
      rw [e5] at hk
      rw [e1, e6]
      rcases getElem?_set_cases hk with ⟨_, hjb⟩ | ⟨_, hold⟩
      · rw [← hjb] at hw1n; simp [WorkerPc.holds] at hw1n
      · exact h.wClose k j hold
    · intro a b wa wb j ha hb hha hhb
      rw [e5] at ha hb
      rcases getElem?_set_cases ha with ⟨_, hja⟩ | ⟨_, holda⟩
      · rw [hja, hw1n] at hha; simp at hha
      · rcases getElem?_set_cases hb with ⟨_, hjb⟩ | ⟨_, holdb⟩
        · rw [hjb, hw1n] at hhb; simp at hhb
        · exact h.wUniq a b wa wb j holda holdb hha hhb
    · rw [e5, List.length_set]; exact h.wLen
    · rw [e1, e7]; exact h.lSend
    · exact ho
    · rw [e9]; exact h.noPanic
  · -- the worker receives the job with index `s.claimed`
    have hok := h.jobOk _ job hjob
    have hfresh := hok.fresh (Nat.le_refl _)
    constructor
    · rw [e1, e2]; exact h.jobIn_set hjob rfl
    · exact hd
    · intro k jb hk
      rw [e1] at hk
      rw [e6]
      rcases getElem?_set_cases hk with ⟨hkj, hjb⟩ | ⟨hkj, hold⟩
      · subst hkj hjb
        have hcl := hok.claims
        simp only [Nat.lt_irrefl, if_false] at hcl
        constructor
        · simp [hcl]
        · exact hok.writes
        · exact hok.closes
        · exact hok.done
        · intro hle; omega
        · exact hok.out
      · have hk0 := h.jobOk k jb hold
        constructor
        · rw [hk0.claims]
          by_cases hlt : k < s.claimed
          · rw [if_pos hlt, if_pos (by omega)]
          · rw [if_neg hlt, if_neg (by omega)]
        · exact hk0.writes
        · exact hk0.closes
        · exact hk0.done
        · intro hle; exact hk0.fresh (by omega)
        · exact hk0.out
    · intro k j hk
      rw [e5] at hk
      rw [e1, e6]
      rcases getElem?_set_cases hk with ⟨_, hjb⟩ | ⟨_, hold⟩
      · injection hjb with hjb
        subst hjb
        exact ⟨Nat.lt_succ_self _, _, getElem?_set_same hjob, hfresh⟩
      · obtain ⟨hlt, jb, hjb, hw0⟩ := h.wProc k j hold
        exact ⟨by omega, jb, getElem?_set_other (by omega) hjb, hw0⟩
    · intro k j hk
      rw [e5] at hk
      rw [e1, e6]
      rcases getElem?_set_cases hk with ⟨_, hjb⟩ | ⟨_, hold⟩
      · exact WorkerPc.noConfusion hjb
      · obtain ⟨hlt, jb, hjb, hw0⟩ := h.wClose k j hold
        exact ⟨by omega, jb, getElem?_set_other (by omega) hjb, hw0⟩
    · intro a b wa wb j ha hb hha hhb
      rw [e5] at ha hb
      rcases getElem?_set_cases ha with ⟨hai, hja⟩ | ⟨hai, holda⟩
      · rcases getElem?_set_cases hb with ⟨hbi, _⟩ | ⟨_, holdb⟩
        · rw [hai, hbi]
        · rw [hja] at hha
          simp only [WorkerPc.holds, Option.some.injEq] at hha
          have := h.held_lt holdb hhb
          omega
      · rcases getElem?_set_cases hb with ⟨_, hjb⟩ | ⟨_, holdb⟩
        · rw [hjb] at hhb
          simp only [WorkerPc.holds, Option.some.injEq] at hhb
          have := h.held_lt holda hha
          omega
        · exact h.wUniq a b wa wb j holda holdb hha hhb
    · rw [e5, List.length_set]; exact h.wLen
    · rw [e1, e7]; exact h.lSend_set hjob (fun hdn => hdn)
    · exact ho
    · rw [e9]; exact h.noPanic
  · -- the worker runs `job.out = processFn(job.in)`
    obtain ⟨hjc, job0, hjob0, hw0⟩ := h.wProc i j hw
    rw [hjob] at hjob0
    injection hjob0 with hjob0
    subst hjob0
    have hok := h.jobOk j job hjob
    have hother : ∀ (k : Nat) (wk : WorkerPc), k ≠ i → s.workers[k]? = some wk →
        wk.holds ≠ some j := by
      intro k wk hki hk hh
      exact hki (h.wUniq k i wk _ j hk hw hh rfl)
    constructor
    · rw [e1, e2]; exact h.jobIn_set hjob rfl
    · exact hd
    · intro k jb hk
      rw [e1] at hk
      rw [e6]
      rcases getElem?_set_cases hk with ⟨hkj, hjb⟩ | ⟨_, hold⟩
      · subst hkj hjb
        have hcw := hok.closes
        constructor
        · exact hok.claims
        · show job.writes + 1 ≤ 1
          omega
        · show job.closes ≤ job.writes + 1
          omega
        · exact hok.done
        · intro hle; omega
        · intro _; rfl
      · exact h.jobOk k jb hold
    · intro k j1 hk
      rw [e5] at hk
      rw [e1, e6]
      rcases getElem?_set_cases hk with ⟨_, hjb⟩ | ⟨hki, hold⟩
      · exact WorkerPc.noConfusion hjb
      · obtain ⟨hlt, jb, hjb, hw1⟩ := h.wProc k j1 hold
        have hne : j1 ≠ j := fun e => hother k _ hki hold (by rw [e]; rfl)
        exact ⟨hlt, jb, getElem?_set_other hne hjb, hw1⟩
    · intro k j1 hk
      rw [e5] at hk
      rw [e1, e6]
      rcases getElem?_set_cases hk with ⟨_, hjb⟩ | ⟨hki, hold⟩
      · injection hjb with hjb
        subst hjb
        have hcw := hok.closes
        refine ⟨hjc, _, getElem?_set_same hjob, ?_, ?_⟩
        · show job.writes + 1 = 1
          omega
        · show job.closes = 0
          omega
      · obtain ⟨hlt, jb, hjb, hw1⟩ := h.wClose k j1 hold
        have hne : j1 ≠ j := fun e => hother k _ hki hold (by rw [e]; rfl)
        exact ⟨hlt, jb, getElem?_set_other hne hjb, hw1⟩
    · intro a b wa wb j1 ha hb hha hhb
      rw [e5] at ha hb
      rcases getElem?_set_cases ha with ⟨hai, hja⟩ | ⟨hai, holda⟩
      · rcases getElem?_set_cases hb with ⟨hbi, _⟩ | ⟨hbi, holdb⟩
        · rw [hai, hbi]
        · rw [hja] at hha
          simp only [WorkerPc.holds, Option.some.injEq] at hha
          subst hha
          exact absurd hhb (hother b wb hbi holdb)
      · rcases getElem?_set_cases hb with ⟨_, hjb⟩ | ⟨_, holdb⟩
        · rw [hjb] at hhb
          simp only [WorkerPc.holds, Option.some.injEq] at hhb
          subst hhb
          exact absurd hha (hother a wa hai holda)
        · exact h.wUniq a b wa wb j1 holda holdb hha hhb
    · rw [e5, List.length_set]; exact h.wLen
    · rw [e1, e7]; exact h.lSend_set hjob (fun hdn => hdn)
    · exact ho
    · rw [e9]; exact h.noPanic
  · -- the worker runs `close(job.done)` on an open channel
    obtain ⟨hjc, job0, hjob0, hw1, hc0⟩ := h.wClose i j hw
    rw [hjob] at hjob0
    injection hjob0 with hjob0
    subst hjob0
    have hok := h.jobOk j job hjob
    have hother : ∀ (k : Nat) (wk : WorkerPc), k ≠ i → s.workers[k]? = some wk →
        wk.holds ≠ some j := by
      intro k wk hki hk hh
      exact hki (h.wUniq k i wk _ j hk hw hh rfl)
    constructor
    · rw [e1, e2]; exact h.jobIn_set hjob rfl
    · exact hd
    · intro k jb hk
      rw [e1] at hk
      rw [e6]
      rcases getElem?_set_cases hk with ⟨hkj, hjb⟩ | ⟨_, hold⟩
      · subst hkj hjb
        constructor
        · exact hok.claims
        · exact hok.writes
        · show job.closes + 1 ≤ job.writes
          omega
        · show true = true ↔ job.closes + 1 = 1
          simp [hc0]
        · exact hok.fresh
        · exact hok.out
      · exact h.jobOk k jb hold
    · intro k j1 hk
      rw [e5] at hk
      rw [e1, e6]
      rcases getElem?_set_cases hk with ⟨_, hjb⟩ | ⟨hki, hold⟩
      · exact WorkerPc.noConfusion hjb
      · obtain ⟨hlt, jb, hjb, hw2⟩ := h.wProc k j1 hold
        have hne : j1 ≠ j := fun e => hother k _ hki hold (by rw [e]; rfl)
        exact ⟨hlt, jb, getElem?_set_other hne hjb, hw2⟩
    · intro k j1 hk
      rw [e5] at hk
      rw [e1, e6]
      rcases getElem?_set_cases hk with ⟨_, hjb⟩ | ⟨hki, hold⟩
      · exact WorkerPc.noConfusion hjb
      · obtain ⟨hlt, jb, hjb, hw2⟩ := h.wClose k j1 hold
        have hne : j1 ≠ j := fun e => hother k _ hki hold (by rw [e]; rfl)
        exact ⟨hlt, jb, getElem?_set_other hne hjb, hw2⟩
    · intro a b wa wb j1 ha hb hha hhb
      rw [e5] at ha hb
      rcases getElem?_set_cases ha with ⟨_, hja⟩ | ⟨_, holda⟩
      · rw [hja] at hha; simp [WorkerPc.holds] at hha
      · rcases getElem?_set_cases hb with ⟨_, hjb⟩ | ⟨_, holdb⟩
        · rw [hjb] at hhb; simp [WorkerPc.holds] at hhb
        · exact h.wUniq a b wa wb j1 holda holdb hha hhb
    · rw [e5, List.length_set]; exact h.wLen
    · rw [e1, e7]; exact h.lSend_set hjob (fun _ => rfl)
    · exact ho
    · rw [e9]; exact h.noPanic
  · -- `close(job.done)` would find the channel closed: excluded
    obtain ⟨_, job0, hjob0, _, hc0⟩ := h.wClose i j hw
    rw [hjob] at hjob0
    injection hjob0 with hjob0
    subst hjob0
    have hc1 := (h.jobOk j job hjob).done.mp hdn
    omega

/-- Every move keeps the data invariant. -/
theorem InvJ.j_step {cfg : Config A B} {s s1 : State A B} {a : Action A}
    (hq : InvQ cfg s) (h : InvJ cfg s) (hs : step cfg s a = some s1) : InvJ cfg s1 := by
  unfold Util.step at hs
  split at hs
  · simp at hs
  · cases a with
    | send x =>
      simp only at hs
      split at hs
      · simp at hs
      · simp only [Option.some.injEq] at hs
        subst hs
        refine h.frame rfl rfl ?_ rfl rfl rfl h.lSend h.noPanic
        show s.received ++ (s.input ++ [x]) = s.delivered ++ [x]
        rw [← List.append_assoc, h.deliv]
    | closeInput =>
      simp only at hs
      split at hs
      · simp at hs
      · simp only [Option.some.injEq] at hs
        subst hs
        exact h.frame rfl rfl h.deliv rfl rfl rfl h.lSend h.noPanic
    | cancel e =>
      simp only at hs
      split at hs
      · simp only [Option.some.injEq] at hs
        subst hs
        exact h.frame rfl rfl h.deliv rfl rfl rfl h.lSend h.noPanic
      · simp at hs
    | feeder v => exact h.j_feederStep hq hs
    | worker i v => exact h.j_workerStep hq hs
    | flusher v => exact h.j_flusherStep hq hs
    | wait =>
      simp only [Util.waitStep] at hs
      split at hs
      · simp only [Option.some.injEq] at hs
        subst hs
        exact h.frame rfl rfl h.deliv rfl rfl rfl h.lSend h.noPanic
      · simp at hs

/-- Every schedule keeps the data invariant. -/
theorem InvJ.j_exec {cfg : Config A B} {acts : List (Action A)} :
    ∀ {s s1 : State A B}, InvQ cfg s → InvJ cfg s → exec cfg s acts = some s1 → InvJ cfg s1 := by
  induction acts with
  | nil =>
    intro s s1 _ h hs
    simp only [Util.exec, Option.some.injEq] at hs
    exact hs ▸ h
  | cons a rest ih =>
    intro s s1 hq h hs
    simp only [Util.exec] at hs
    split at hs
    · next s2 h2 => exact ih (hq.q_step h2) (h.j_step hq h2) hs
    · simp at hs

/-- The data invariant holds in every reachable state. -/
theorem InvJ.j_reachable {cfg : Config A B} {st : Start A} {s : State A B}
    (h : Reachable cfg st s) : InvJ cfg s := by
  obtain ⟨acts, hacts⟩ := h
  exact (InvJ.j_init cfg st).j_exec (InvQ.q_init cfg st) hacts

end JobInvariant

end Util

namespace Util

section FlagInvariant

variable {A B : Type} [Inhabited B]

/-- The flag invariant holds at the start of the call. -/
theorem InvF.f_init (cfg : Config A B) (st : Start A) : InvF (init cfg st) := by
  constructor <;> simp [Util.init, Chan.empty, NewChanIterator]

/-- Every move of the feeder keeps the flag invariant. -/
theorem InvF.f_feederStep {cfg : Config A B} {s s1 : State A B} {v : Bool}
    (hq : InvQ cfg s) (h : InvF s) (hs : feederStep s v = some s1) : InvF s1 := by
  have q1 := hq.fLoop
  have q2 := hq.closedB
  have q3 := hq.lLoop
  have q4 := hq.fIn
  have q5 := hq.fOut
  clear hq
  obtain ⟨h1, h2, h3, h4, h5, h6, h7⟩ := h
  cases s
  rename_i ctxErr input inputClosed output outputClosed jobs iA iB fd fit ifd ws fl flit ofd
    res pn dl rc calls claimed taken
  cases iA
  cases iB
  cases fit
  cases flit
  simp only at h1 h2 h3 h4 h5 h6 h7 q1 q2 q3 q4 q5
  unfold Util.feederStep at hs
  cases fd <;> cases v <;> simp only [reduceCtorEq] at hs
  all_goals (repeat' split at hs)
  all_goals simp only [Option.some.injEq, reduceCtorEq] at hs
  all_goals subst hs
  all_goals try subst fd
  all_goals try simp only [List.length_cons, List.length_nil] at h3 q1 q4 q5
  all_goals try simp at h3 h4 h7 q1 q2 q4 q5
  all_goals try simp at h5 h6 q3
  all_goals constructor
  all_goals try simp [ChanIterator.Closed]
  all_goals first
    | assumption
    | omega
    | (simp_all; done)
    | (simp_all; omega)
    | (intro hp; simp [hp] at h3; omega)
    | (intro hp; simp [hp] at h3; simp [h3]; omega)

/-- Every move of a worker keeps the flag invariant. -/
theorem InvF.f_workerStep {cfg : Config A B} {s s1 : State A B} {i : Nat} {v : Bool}
    (hq : InvQ cfg s) (h : InvF s) (hs : workerStep cfg s i v = some s1) : InvF s1 := by
  have q1 := hq.fLoop
  have q2 := hq.closedB
  have q3 := hq.lLoop
  have q4 := hq.fIn
  have q5 := hq.fOut
  clear hq
  obtain ⟨h1, h2, h3, h4, h5, h6, h7⟩ := h
  cases s
  rename_i ctxErr input inputClosed output outputClosed jobs iA iB fd fit ifd ws fl flit ofd
    res pn dl rc calls claimed taken
  cases iA
  cases iB
  cases fit
  cases flit
  simp only at h1 h2 h3 h4 h5 h6 h7 q1 q2 q3 q4 q5
  unfold Util.workerStep at hs
  simp only at hs
  all_goals (repeat' split at hs)
  all_goals simp only [Option.some.injEq, reduceCtorEq] at hs
  all_goals subst hs
  all_goals try subst fd
  all_goals try simp only [List.length_cons, List.length_nil] at h3 q1 q4 q5
  all_goals try simp at h3 h4 h7 q1 q2 q4 q5
  all_goals try simp at h5 h6 q3
  all_goals constructor
  all_goals try simp [ChanIterator.Closed]
  all_goals first
    | assumption
    | omega
    | (simp_all; done)
    | (simp_all; omega)
    | (intro hp; simp [hp] at h3; omega)
    | (intro hp; simp [hp] at h3; simp [h3]; omega)

/-- Every move of the flusher keeps the flag invariant. -/
theorem InvF.f_flusherStep {cfg : Config A B} {s s1 : State A B} {v : Bool}
    (hq : InvQ cfg s) (h : InvF s) (hs : flusherStep s v = some s1) : InvF s1 := by
  have q1 := hq.fLoop
  have q2 := hq.closedB
  have q3 := hq.lLoop
  have q4 := hq.fIn
  have q5 := hq.fOut
  clear hq
  obtain ⟨h1, h2, h3, h4, h5, h6, h7⟩ := h
  cases s
  rename_i ctxErr input inputClosed output outputClosed jobs iA iB fd fit ifd ws fl flit ofd
    res pn dl rc calls claimed taken
  cases iA
  cases iB
  cases fit
  cases flit
  simp only at h1 h2 h3 h4 h5 h6 h7 q1 q2 q3 q4 q5
  unfold Util.flusherStep at hs
  cases fl <;> cases v <;> simp only [reduceCtorEq] at hs
  all_goals (repeat' split at hs)
  all_goals simp only [Option.some.injEq, reduceCtorEq] at hs
  all_goals subst hs
  all_goals try subst fd
  all_goals try simp only [List.length_cons, List.length_nil] at h3 q1 q4 q5
  all_goals try simp at h3 h4 h7 q1 q2 q4 q5
  all_goals try simp at h5 h6 q3
  all_goals constructor
  all_goals try simp [ChanIterator.Closed]
  all_goals first
    | assumption
    | omega
    | (simp_all; done)
    | (simp_all; omega)
    | (intro hp; simp [hp] at h3; omega)
    | (intro hp; simp [hp] at h3; simp [h3]; omega)

/-- Every move keeps the flag invariant. -/
theorem InvF.f_step {cfg : Config A B} {s s1 : State A B} {a : Action A}
    (hq : InvQ cfg s) (h : InvF s) (hs : step cfg s a = some s1) : InvF s1 := by
  unfold Util.step at hs
  split at hs
  · simp at hs
  · cases a with
    | send x =>
      simp only at hs
      split at hs
      · simp at hs
      · next hc =>
        simp only [Option.some.injEq] at hs
        subst hs
        refine ⟨h.itIn, h.itOut, ?_, h.inCancel, h.outDone, h.outCancel, h.res⟩
        intro hd
        exact absurd (h.inDone hd).2.1 hc
    | closeInput =>
      simp only at hs
      split at hs
      · simp at hs
      · simp only [Option.some.injEq] at hs
        subst hs
        refine ⟨h.itIn, h.itOut, ?_, h.inCancel, h.outDone, h.outCancel, h.res⟩
        intro hd
        obtain ⟨a1, _, a3, a4, a5⟩ := h.inDone hd
        exact ⟨a1, rfl, a3, a4, a5⟩
    | cancel e =>
      simp only at hs
      split at hs
      · next hc =>
        simp only [Option.some.injEq] at hs
        subst hs
        refine ⟨h.itIn, h.itOut, h.inDone, ?_, h.outDone, ?_, ?_⟩
        · intro _ _; simp
        · intro _ _; simp
        · intro r hr
          obtain ⟨a1, a2, a3⟩ := h.res r hr
          refine ⟨a1, a2, ?_⟩
          by_cases hfl : (s.inputFullyDone && s.outputFullyDone) = true
          · rw [if_pos hfl] at a3
            show r = if (s.inputFullyDone && s.outputFullyDone) = true then none else some e
            rw [if_pos hfl]
            exact a3
          · exfalso
            rw [Bool.and_eq_true, not_and_or] at hfl
            rcases hfl with hfl | hfl
            · exact h.inCancel (Or.inr (Or.inr a1)) (Bool.eq_false_iff.mpr hfl) hc
            · exact h.outCancel a2 (Bool.eq_false_iff.mpr hfl) hc
      · simp at hs
    | feeder v => exact h.f_feederStep hq hs
    | worker i v => exact h.f_workerStep hq hs
    | flusher v => exact h.f_flusherStep hq hs
    | wait =>
      simp only [Util.waitStep] at hs
      split at hs
      · next hc =>
        simp only [Option.some.injEq] at hs
        subst hs
        refine ⟨h.itIn, h.itOut, h.inDone, h.inCancel, h.outDone, h.outCancel, ?_⟩
        intro r hr
        simp only [Option.some.injEq] at hr
        exact ⟨hc.2.1, hc.2.2.1, hr.symm⟩
      · simp at hs

/-- Every schedule keeps the flag invariant. -/
theorem InvF.f_exec {cfg : Config A B} {acts : List (Action A)} :
    ∀ {s s1 : State A B}, InvQ cfg s → InvF s → exec cfg s acts = some s1 → InvF s1 := by
  induction acts with
  | nil =>
    intro s s1 _ h hs
    simp only [Util.exec, Option.some.injEq] at hs
    exact hs ▸ h
  | cons a rest ih =>
    intro s s1 hq h hs
    simp only [Util.exec] at hs
    split at hs
    · next s2 h2 => exact ih (hq.q_step h2) (h.f_step hq h2) hs
    · simp at hs

/-- The flag invariant holds in every reachable state. -/
theorem InvF.f_reachable {cfg : Config A B} {st : Start A} {s : State A B}
    (h : Reachable cfg st s) : InvF s := by
  obtain ⟨acts, hacts⟩ := h
  exact (InvF.f_init cfg st).f_exec (InvQ.q_init cfg st) hacts

end FlagInvariant

end Util

namespace Util

section NoWorkers

variable {A B : Type} [Inhabited B]

/-- Without workers the invariant holds at the start of the call. -/
theorem InvZ.z_init (cfg : Config A B) (st : Start A) (hw : cfg.workersCount = 0) :
    InvZ (init cfg st) := by
  constructor <;> simp [Util.init, hw]

/-- Without workers every move keeps the invariant: no worker can move, so no job is ever done. -/
theorem InvZ.z_step {cfg : Config A B} {s s1 : State A B} {a : Action A}
    (h : InvZ s) (hs : step cfg s a = some s1) : InvZ s1 := by
  obtain ⟨h1, h2, h3, h4, h5, h6⟩ := h
  cases s
  rename_i ctxErr input inputClosed output outputClosed jobs iA iB fd fit ifd ws fl flit ofd
    res pn dl rc calls claimed taken
  simp only at h1 h2 h3 h4 h5 h6
  subst h1 h2 h3 h4
  unfold Util.step at hs
  split at hs
  · simp at hs
  · cases a with
    | send x =>
      simp only at hs
      split at hs
      · simp at hs
      · simp only [Option.some.injEq] at hs
        subst hs
        exact ⟨rfl, rfl, rfl, rfl, h5, h6⟩
    | closeInput =>
      simp only at hs
      split at hs
      · simp at hs
      · simp only [Option.some.injEq] at hs
        subst hs
        exact ⟨rfl, rfl, rfl, rfl, h5, h6⟩
    | cancel e =>
      simp only at hs
      split at hs
      · simp only [Option.some.injEq] at hs
        subst hs
        exact ⟨rfl, rfl, rfl, rfl, h5, h6⟩
      · simp at hs
    | feeder v =>
      simp only [Util.feederStep] at hs
      split at hs
      all_goals (repeat' split at hs)
      all_goals simp only [Option.some.injEq, reduceCtorEq] at hs
      all_goals subst hs
      all_goals refine ⟨rfl, rfl, rfl, rfl, h5, ?_⟩
      all_goals first
        | exact h6
        | (intro job hjob
           simp only [List.mem_append, List.mem_singleton] at hjob
           rcases hjob with hjob | hjob
           · exact h6 job hjob
           · rw [hjob])
    | worker i v =>
      simp [Util.workerStep] at hs
    | flusher v =>
      simp only [Util.flusherStep] at hs
      split at hs
      all_goals (repeat' split at hs)
      all_goals simp only [Option.some.injEq, reduceCtorEq] at hs
      all_goals subst hs
      all_goals first
        | exact ⟨rfl, rfl, rfl, rfl, fun _ hc => FlusherPc.noConfusion hc, h6⟩
        | exact ⟨rfl, rfl, rfl, rfl, h5, h6⟩
        | (exfalso
           rename_i job hjob hdone
           have := h6 job (List.getElem?_mem hjob)
           rw [this] at hdone
           exact Bool.noConfusion hdone)
        | (exfalso
           exact h5 _ rfl)
    | wait =>
      simp only [Util.waitStep] at hs
      split at hs
      · simp only [Option.some.injEq] at hs
        subst hs
        exact ⟨rfl, rfl, rfl, rfl, h5, h6⟩
      · simp at hs

/-- Without workers every schedule keeps the invariant. -/
theorem InvZ.z_exec {cfg : Config A B} {acts : List (Action A)} :
    ∀ {s s1 : State A B}, InvZ s → exec cfg s acts = some s1 → InvZ s1 := by
  induction acts with
  | nil =>
    intro s s1 h hs
    simp only [Util.exec, Option.some.injEq] at hs
    exact hs ▸ h
  | cons a rest ih =>
    intro s s1 h hs
    simp only [Util.exec] at hs
    split at hs
    · next s2 h2 => exact ih (h.z_step h2) hs
    · simp at hs

end NoWorkers

end Util

namespace Util

section EmptyInput

variable {A B : Type} [Inhabited B]

/-- The invariant holds at the start of a call on a closed, empty `input`. -/
theorem InvE.e_init (cfg : Config A B) (oc : Bool) : InvE oc (init cfg (emptyStart A oc)) := by
  constructor <;> simp [Util.init, emptyStart, Chan.empty, WorkerPc.holds]

/-- Changing the program counter of one worker changes the sum of ranks accordingly. -/
theorem rank_sum_set {ws : List WorkerPc} {i : Nat} {w : WorkerPc} (w1 : WorkerPc)
    (h : ws[i]? = some w) :
    ((ws.set i w1).map WorkerPc.rank).sum + w.rank = (ws.map WorkerPc.rank).sum + w1.rank := by
  induction ws generalizing i with
  | nil => simp at h
  | cons a rest ih =>
    cases i with
    | zero =>
      simp only [List.getElem?_cons_zero, Option.some.injEq] at h
      subst h
      simp only [List.set_cons_zero, List.map_cons, List.sum_cons]
      omega
    | succ n =>
      simp only [List.getElem?_cons_succ] at h
      have := ih h
      simp only [List.set_cons_succ, List.map_cons, List.sum_cons]
      omega

/-- An element of a list after `set` is the new element or an old one. -/
theorem mem_set_cases {α : Type} {l : List α} {i : Nat} {a b : α} (h : b ∈ l.set i a) :
    b = a ∨ b ∈ l := by
  obtain ⟨k, hk⟩ := List.getElem?_of_mem h
  rcases getElem?_set_cases hk with ⟨_, hb⟩ | ⟨_, hold⟩
  · exact Or.inl hb
  · exact Or.inr (List.getElem?_mem hold)

/-- On a closed, empty `input` a worker move keeps the invariant and uses up one move. -/
theorem InvE.e_workerStep {cfg : Config A B} {oc : Bool} {s s1 : State A B} {i : Nat} {v : Bool}
    (h : InvE oc s) (hs : workerStep cfg s i v = some s1) :
    InvE oc s1 ∧ s1.remaining + 1 = s.remaining := by
  have key : ∃ w w1, s.workers[i]? = some w ∧ w1.holds = none ∧ w1.rank + 1 = w.rank ∧
      s1 = { s with workers := s.workers.set i w1 } := by
    have hctx := h.ctx
    have hbuf := h.bufA
    have hfin := h.fIn
    have hw := h.wpc
    unfold Util.workerStep at hs
    split at hs
    all_goals (repeat' split at hs)
    all_goals simp only [Option.some.injEq, reduceCtorEq] at hs
    all_goals try subst hs
    all_goals first
      | exact ⟨WorkerPc.loopHead, WorkerPc.select, by assumption, rfl, rfl, rfl⟩
      | exact ⟨WorkerPc.select, WorkerPc.done, by assumption, rfl, rfl, rfl⟩
      | exact absurd hctx (by assumption)
      | (exfalso
         rw [hbuf] at *
         simp at *
         done)
      | (exfalso
         exact hfin _ (by assumption))
      | (exfalso
         have h1 := hw _ (List.getElem?_mem (by assumption : s.workers[i]? = some (WorkerPc.process _)))
         simp [WorkerPc.holds] at h1
         done)
      | (exfalso
         have h1 := hw _ (List.getElem?_mem (by assumption : s.workers[i]? = some (WorkerPc.closeDone _)))
         simp [WorkerPc.holds] at h1
         done)
  obtain ⟨w, w1, hw, hw1, hrank, hs1⟩ := key
  subst hs1
  constructor
  · refine ⟨h.ctx, h.input, h.inputClosed, h.jobs, h.bufA, h.bufB, h.output, h.calls,
      h.outClosed, h.panic, h.fIn, h.fOut, h.closedA, h.closedB, ?_, h.lWait, h.lSend,
      h.inFlag, h.outFlag, ?_⟩
    · intro x hx
      rcases mem_set_cases hx with hx | hx
      · rw [hx]; exact hw1
      · exact h.wpc x hx
    · intro r hr
      obtain ⟨_, _, _, hall⟩ := h.res r hr
      have := hall w (List.getElem?_mem hw)
      subst this
      simp [WorkerPc.rank] at hrank
  · have := rank_sum_set w1 hw
    simp only [State.remaining]
    omega

/-- On a closed, empty `input` every move other than a cancellation keeps the invariant and
uses up one move. -/
theorem InvE.e_step {cfg : Config A B} {oc : Bool} {s s1 : State A B} {a : Action A}
    (h : InvE oc s) (ha : a.isCancel = false) (hs : step cfg s a = some s1) :
    InvE oc s1 ∧ s1.remaining + 1 = s.remaining := by
  unfold Util.step at hs
  split at hs
  · simp at hs
  · rename_i hpanic
    clear hpanic
    cases a with
    | send x => simp [h.inputClosed] at hs
    | closeInput => simp [h.inputClosed] at hs
    | cancel e => simp [Action.isCancel] at ha
    | worker i v => exact h.e_workerStep hs
    | feeder v =>
      simp only at hs
      obtain ⟨h1, h2, h3, h4, h5, h6, h7, h8, h9, h10, h11, h12, h13, h14, h15, h16, h17, h18,
        h19, h20⟩ := h
      cases s
      rename_i ctxErr input inputClosed output outputClosed jobs iA iB fd fit ifd ws fl flit ofd
        res pn dl rc calls claimed taken
      cases iA
      cases iB
      simp only at h1 h2 h3 h4 h5 h6 h7 h8 h9 h10 h11 h12 h13 h14 h15 h16 h17 h18 h19 h20
      subst h1 h2 h3 h4 h5 h6 h7 h8 h9 h10
      unfold Util.feederStep at hs
      cases fd <;> cases v <;> simp only [reduceCtorEq] at hs
      all_goals (repeat' split at hs)
      all_goals simp only [Option.some.injEq, reduceCtorEq] at hs
      all_goals try subst hs
      all_goals try simp at h11 h12 h13 h14 h18 h20
      all_goals try simp at hs
      all_goals refine ⟨?_, ?_⟩
      all_goals first
        | (constructor <;> simp_all <;> done)
        | (simp [State.remaining, FeederPc.rank]
           split <;> omega)
        | (simp [State.remaining, FeederPc.rank]; done)
        | simp_all
    | flusher v =>
      simp only at hs
      obtain ⟨h1, h2, h3, h4, h5, h6, h7, h8, h9, h10, h11, h12, h13, h14, h15, h16, h17, h18,
        h19, h20⟩ := h
      cases s
      rename_i ctxErr input inputClosed output outputClosed jobs iA iB fd fit ifd ws fl flit ofd
        res pn dl rc calls claimed taken
      cases iA
      cases iB
      simp only at h1 h2 h3 h4 h5 h6 h7 h8 h9 h10 h11 h12 h13 h14 h15 h16 h17 h18 h19 h20
      subst h1 h2 h3 h4 h5 h6 h7 h8 h9 h10
      unfold Util.flusherStep at hs
      cases fl <;> cases v <;> simp only [reduceCtorEq] at hs
      all_goals (repeat' split at hs)
      all_goals simp only [Option.some.injEq, reduceCtorEq] at hs
      all_goals try subst hs
      all_goals try simp at h16 h17 h19 h20
      all_goals try simp at hs
      all_goals refine ⟨?_, ?_⟩
      all_goals first
        | (constructor <;> simp_all <;> done)
        | (simp [State.remaining, FlusherPc.rank]
           split <;> omega)
        | (simp [State.remaining, FlusherPc.rank]; done)
        | simp_all
    | wait =>
      simp only [Util.waitStep] at hs
      split at hs
      · next hc =>
        simp only [Option.some.injEq] at hs
        subst hs
        have hall : ∀ w ∈ s.workers, w = WorkerPc.done := by
          intro w hw
          have := List.all_eq_true.mp hc.2.2.2 w hw
          simpa using this
        constructor
        · refine ⟨h.ctx, h.input, h.inputClosed, h.jobs, h.bufA, h.bufB, h.output, h.calls,
            h.outClosed, h.panic, h.fIn, h.fOut, h.closedA, h.closedB, h.wpc, h.lWait, h.lSend,
            h.inFlag, h.outFlag, ?_⟩
          intro r hr
          simp only [Option.some.injEq] at hr
          have h1 := h.inFlag (Or.inr (Or.inr hc.2.1))
          have h2 := h.outFlag hc.2.2.1
          rw [h1, h2] at hr
          exact ⟨by simpa using hr.symm, hc.2.1, hc.2.2.1, hall⟩
        · simp [State.remaining, hc.1]
      · simp at hs

/-- On a closed, empty `input` a schedule without cancellation keeps the invariant and uses
up as many moves as it has. -/
theorem InvE.e_exec {cfg : Config A B} {oc : Bool} {acts : List (Action A)} :
    ∀ {s s1 : State A B}, InvE oc s → (∀ a ∈ acts, a.isCancel = false) →
      exec cfg s acts = some s1 → InvE oc s1 ∧ s1.remaining + acts.length = s.remaining := by
  induction acts with
  | nil =>
    intro s s1 h _ hs
    simp only [Util.exec, Option.some.injEq] at hs
    subst hs
    exact ⟨h, rfl⟩
  | cons a rest ih =>
    intro s s1 h hc hs
    simp only [Util.exec] at hs
    split at hs
    · next s2 h2 =>
      obtain ⟨hinv, hrem⟩ := h.e_step (hc a (List.mem_cons_self _ _)) h2
      obtain ⟨hinv1, hrem1⟩ := ih hinv (fun b hb => hc b (List.mem_cons_of_mem _ hb)) hs
      refine ⟨hinv1, ?_⟩
      simp only [List.length_cons]
      omega
    · simp at hs

/-- At the start `2 * workersCount + 7` moves are left. -/
theorem remaining_init (cfg : Config A B) (st : Start A) :
    (init cfg st).remaining = 2 * cfg.workersCount + 7 := by
  simp [State.remaining, Util.init, FeederPc.rank, FlusherPc.rank, WorkerPc.rank,
    List.map_replicate, List.sum_replicate]
  omega

/-- On a closed, empty `input`, as long as the call has not returned some goroutine can
move. -/
theorem InvE.progress {cfg : Config A B} {oc : Bool} {s : State A B} (h : InvE oc s)
    (hres : s.result = none) :
    ∃ a : Action A, a.isCancel = false ∧ (Util.step cfg s a).isSome = true := by
  have hp : ¬ s.panic ≠ none := by simp [h.panic]
  by_cases hfd : s.feeder = FeederPc.done
  · by_cases hfl : s.flusher = FlusherPc.done
    · by_cases hall : s.workers.all (fun w => decide (w = WorkerPc.done)) = true
      · refine ⟨Action.wait, rfl, ?_⟩
        simp [Util.step, hp, Util.waitStep, hres, hfd, hfl]
        simpa using hall
      · have hex : ∃ w ∈ s.workers, w ≠ WorkerPc.done := by
          by_contra hne
          apply hall
          rw [List.all_eq_true]
          intro w hw
          by_contra hd
          exact hne ⟨w, hw, by simpa using hd⟩
        obtain ⟨w, hw, hwd⟩ := hex
        obtain ⟨i, hi⟩ := List.getElem?_of_mem hw
        have hh := h.wpc w hw
        have hA := h.closedA.mpr hfd
        refine ⟨Action.worker i false, rfl, ?_⟩
        cases w with
        | loopHead => simp [Util.step, hp, Util.workerStep, hi, h.ctx]
        | select => simp [Util.step, hp, Util.workerStep, hi, h.bufA, hA]
        | process j => simp [WorkerPc.holds] at hh
        | closeDone j => simp [WorkerPc.holds] at hh
        | done => exact absurd rfl hwd
    · refine ⟨Action.flusher false, rfl, ?_⟩
      have hB := h.closedB.mpr (Or.inr hfd)
      cases hpc : s.flusher with
      | loopHead => simp [Util.step, hp, Util.flusherStep, hpc, h.ctx]
      | select => simp [Util.step, hp, Util.flusherStep, hpc, h.bufB, hB]
      | waitDone j => exact absurd hpc (h.lWait j)
      | send j => exact absurd hpc (h.lSend j)
      | done => exact absurd hpc hfl
  · refine ⟨Action.feeder false, rfl, ?_⟩
    cases hpc : s.feeder with
    | loopHead => simp [Util.step, hp, Util.feederStep, hpc, h.ctx]
    | select => simp [Util.step, hp, Util.feederStep, hpc, h.input, h.inputClosed]
    | sendIn j => exact absurd hpc (h.fIn j)
    | sendOut j => exact absurd hpc (h.fOut j)
    | closeOut =>
      simp only [Util.step, hp, Util.feederStep, hpc, if_false]
      split <;> rfl
    | closeIn =>
      simp only [Util.step, hp, Util.feederStep, hpc, if_false]
      split <;> rfl
    | done => exact absurd hpc hfd

end EmptyInput

end Util

namespace Util

/-! ## Properties of `ProcessInParallel` -/

section PipelineClaims

variable {A B : Type} [Inhabited B]

/-- The returned value is `nil` with both flags set, or it is the non-nil `ctx.Err()` with
one of the flags not set. -/
theorem result_cases {s : State A B} (hf : InvF s) {r : Option CtxErr}
    (hret : s.result = some r) :
    (r = none ∧ s.inputFullyDone = true ∧ s.outputFullyDone = true) ∨
    (r = s.ctxErr ∧ s.ctxErr ≠ none ∧
      ¬ (s.inputFullyDone = true ∧ s.outputFullyDone = true)) := by
  obtain ⟨hfd, hfl, hres⟩ := hf.res r hret
  by_cases hb : (s.inputFullyDone && s.outputFullyDone) = true
  · rw [if_pos hb] at hres
    rw [Bool.and_eq_true] at hb
    exact Or.inl ⟨hres, hb⟩
  · rw [if_neg hb] at hres
    rw [Bool.and_eq_true] at hb
    refine Or.inr ⟨hres, ?_, hb⟩
    rw [not_and_or] at hb
    rcases hb with hb | hb
    · exact hf.inCancel (Or.inr (Or.inr hfd)) (Bool.eq_false_iff.mpr hb)
    · exact hf.outCancel hfl (Bool.eq_false_iff.mpr hb)

/-- With both flags set, everything delivered has been received and forwarded. -/
theorem output_of_flags {cfg : Config A B} {s : State A B} (hq : InvQ cfg s) (hj : InvJ cfg s)
    (hf : InvF s) (hi : s.inputFullyDone = true) (ho : s.outputFullyDone = true) :
    s.received = s.delivered ∧ s.output = s.delivered.map cfg.processFn := by
  obtain ⟨_, _, hin, hsum, _⟩ := hf.inDone hi
  obtain ⟨_, _, hbuf, htk⟩ := hf.outDone ho
  have hlen : s.output.length = s.received.length := by
    rw [hbuf] at hsum
    rw [hq.recvLen, ← hsum, htk]
    rfl
  have hdl : s.received = s.delivered := by
    have := hj.deliv
    rw [hin, List.append_nil] at this
    exact this
  have hout := hj.outEq
  rw [hlen, List.take_length, hdl] at hout
  exact ⟨hdl, hout⟩

/-- C1. If `ProcessInParallel` returns `nil`, the sequence of values sent on `output` is
exactly `processFn` applied, in order, to every item that was delivered on `input`: same
length, same order, whatever the interleaving of feeder, workers and flusher was. -/
theorem processInParallel_nil_output (cfg : Config A B) (st : Start A) (s : State A B)
    (hr : Reachable cfg st s) (hret : s.result = some none) :
    s.output = s.delivered.map cfg.processFn ∧ s.output.length = s.delivered.length := by
  have hf := InvF.f_reachable hr
  rcases result_cases hf hret with ⟨_, hi, ho⟩ | ⟨hc, hne, _⟩
  · have hout := (output_of_flags (InvQ.q_reachable hr) (InvJ.j_reachable hr) hf hi ho).2
    exact ⟨hout, by rw [hout, List.length_map]⟩
  · exact absurd hc.symm hne

/-- C2. In every reachable state of a run of `ProcessInParallel`, cancelled or not, what has
been sent on `output` so far is an initial segment of `processFn` applied to the items the
feeder has received so far: the `k`-th value sent is the transform of the `k`-th item
received, so outputs are never reordered and never made up. -/
theorem processInParallel_output_initial_segment (cfg : Config A B) (st : Start A)
    (s : State A B) (hr : Reachable cfg st s) :
    s.output <+: s.received.map cfg.processFn ∧
    s.output = (s.received.take s.output.length).map cfg.processFn ∧
    ∀ (k : Nat) (b : B), s.output[k]? = some b →
      ∃ x, s.received[k]? = some x ∧ b = cfg.processFn x := by
  have hj := InvJ.j_reachable hr
  have hout := hj.outEq
  refine ⟨?_, hout, ?_⟩
  · rw [hout, List.map_take]
    exact List.take_prefix _ _
  · intro k b hk
    rw [hout, List.getElem?_map, List.getElem?_take] at hk
    split at hk
    · cases hx : s.received[k]? with
      | none => rw [hx] at hk; simp at hk
      | some x =>
        rw [hx] at hk
        simp only [Option.map_some', Option.some.injEq] at hk
        exact ⟨x, rfl, hk.symm⟩
    · simp at hk

/-- C6. In every reachable state of a run of `ProcessInParallel`, also when the sink never
accepts a value, the number of jobs allocated by the feeder and not yet forwarded to `output`
is at most `bufferSize + workersCount + 2`; in fact it is at most `bufferSize + 2`: the jobs
buffered in `internalOutput`, the job in the feeder's hand and the job in the flusher's
hand. -/
theorem processInParallel_unflushed_bound (cfg : Config A B) (st : Start A) (s : State A B)
    (hr : Reachable cfg st s) :
    s.unflushed ≤ cfg.bufferSize + cfg.workersCount + 2 ∧ s.unflushed ≤ cfg.bufferSize + 2 := by
  have hq := InvQ.q_reachable hr
  have h1 := hq.hiB
  have h2 := hq.hiT
  have h3 := hq.lenB
  unfold State.unflushed
  constructor <;> omega

/-- C10. In every reachable state of a run of `ProcessInParallel`, every job has been
received from `internalInput` at most once, its field `out` has been assigned at most once
and `close(job.done)` has been executed at most once; no close of a closed channel has
happened; two different workers never have the same job in hand; and when the flusher is
about to read `job.out` for sending, `job.done` has been closed, after `out` was assigned
`processFn(job.in)`. -/
theorem processInParallel_job_completed_once (cfg : Config A B) (st : Start A) (s : State A B)
    (hr : Reachable cfg st s) :
    (∀ (j : Nat) (job : internalJob A B), s.jobs[j]? = some job →
      job.claims ≤ 1 ∧ job.writes ≤ 1 ∧ job.closes ≤ 1 ∧ (job.done = true ↔ job.closes = 1)) ∧
    s.panic ≠ some Panic.closeOfClosedChannel ∧
    (∀ (i k : Nat) (wi wk : WorkerPc) (j : Nat), s.workers[i]? = some wi →
      s.workers[k]? = some wk → wi.holds = some j → wk.holds = some j → i = k) ∧
    (∀ j, s.flusher = FlusherPc.send j → ∃ job, s.jobs[j]? = some job ∧ job.done = true ∧
      job.writes = 1 ∧ job.out = cfg.processFn job.in_) := by
  have hj := InvJ.j_reachable hr
  refine ⟨?_, hj.noPanic, hj.wUniq, ?_⟩
  · intro j job hjob
    have hok := hj.jobOk j job hjob
    have h1 := hok.claims
    have h2 := hok.writes
    have h3 := hok.closes
    refine ⟨?_, h2, by omega, hok.done⟩
    rw [h1]
    split <;> omega
  · intro j hfl
    obtain ⟨job, hjob, hd⟩ := hj.lSend j hfl
    have hok := hj.jobOk j job hjob
    have h2 := hok.writes
    have h3 := hok.closes
    have h4 := hok.done.mp hd
    have h5 : job.writes = 1 := by omega
    exact ⟨job, hjob, hd, h5, hok.out (by omega)⟩

end PipelineClaims

end Util

namespace Util

section PipelineClaimsB

variable {A B : Type} [Inhabited B]

/-- C4 (as the code has it). `ProcessInParallel` called with `workersCount = 0` is not
rejected: feeder and flusher run without workers.  In every reachable state `processFn` has
not been called and nothing has been sent on `output`; when the call returns `nil`, `input`
was closed without a single item having been delivered; and once an item has been received
from `input`, the call returns `ctx.Err()`, which is then non-nil. -/
theorem processInParallel_zero_workers (cfg : Config A B) (st : Start A) (s : State A B)
    (hw : cfg.workersCount = 0) (hr : Reachable cfg st s) :
    s.calls = 0 ∧ s.output = [] ∧
    ∀ r, s.result = some r →
      (r = none → s.received = [] ∧ s.delivered = [] ∧ s.inputClosed = true) ∧
      (s.received ≠ [] → r = s.ctxErr ∧ s.ctxErr ≠ none) := by
  obtain ⟨acts, hacts⟩ := hr
  have hz := (InvZ.z_init cfg st hw).z_exec hacts
  have hr : Reachable cfg st s := ⟨acts, hacts⟩
  have hq := InvQ.q_reachable hr
  have hj := InvJ.j_reachable hr
  have hf := InvF.f_reachable hr
  refine ⟨hz.calls0, hz.output0, ?_⟩
  intro r hret
  have hnil : s.inputFullyDone = true → s.outputFullyDone = true →
      s.received = [] ∧ s.delivered = [] ∧ s.inputClosed = true := by
    intro hi ho
    obtain ⟨h1, h2⟩ := output_of_flags hq hj hf hi ho
    rw [hz.output0] at h2
    have hdl : s.delivered = [] := by
      have h3 := congrArg List.length h2
      rw [List.length_map, List.length_nil] at h3
      exact List.eq_nil_of_length_eq_zero h3.symm
    exact ⟨h1.trans hdl, hdl, (hf.inDone hi).2.1⟩
  rcases result_cases hf hret with ⟨_, hi, ho⟩ | ⟨hc, hne, _⟩
  · exact ⟨fun _ => hnil hi ho, fun hrec => absurd (hnil hi ho).1 hrec⟩
  · exact ⟨fun hrn => absurd (hc ▸ hrn) hne, fun _ => ⟨hc, hne⟩⟩

/-- When `bufferSize` is within the allocation limit both `make` calls succeed and the call
starts in the state `init`. -/
theorem enter_ok (chanLimit : Nat) (cfg : Config A B) (st : Start A)
    (h : cfg.bufferSize ≤ chanLimit) : enter chanLimit cfg st = Except.ok (init cfg st) := by
  simp [enter, Chan.make, h, Util.init]

/-- When `bufferSize` exceeds the allocation limit the call ends in `make` with
`makechan: size out of range`. -/
theorem enter_error (chanLimit : Nat) (cfg : Config A B) (st : Start A)
    (h : chanLimit < cfg.bufferSize) :
    enter chanLimit cfg st = Except.error Panic.makechanSizeOutOfRange := by
  simp [enter, Chan.make, Nat.not_le.mpr h]

/-- Every state that a call passes through after its `make` calls have succeeded is a
reachable state, so everything proved of reachable states holds of it. -/
theorem reachable_of_enter (chanLimit : Nat) (cfg : Config A B) (st : Start A)
    (s0 s : State A B) (acts : List (Action A))
    (h0 : enter chanLimit cfg st = Except.ok s0) (hs : exec cfg s0 acts = some s) :
    Reachable cfg st s := by
  by_cases h : cfg.bufferSize ≤ chanLimit
  · rw [enter_ok chanLimit cfg st h] at h0
    injection h0 with h0
    subst h0
    exact ⟨acts, hs⟩
  · rw [enter_error chanLimit cfg st (Nat.not_le.mp h)] at h0
    exact Except.noConfusion h0

/-- C5 (as the code has it). Take a call on an `input` that is already closed and empty, with
a `ctx` that is never done.  If `bufferSize` exceeds the limit up to which
`make(chan *internalJob, bufferSize)` succeeds, the call ends at line 24 with the run-time
error `makechan: size out of range` and returns nothing.  Otherwise the `make` calls succeed
and every interleaving of `ProcessInParallel` returns `nil`: a schedule has at most
`2 * workersCount + 7` moves, as long as the call has not returned some goroutine can move,
and a schedule of full length has returned `nil`.  Throughout, nothing is sent on `output`,
`processFn` is not called, no run-time error occurs, and `output` is left as the caller
passed it: `ProcessInParallel` does not close it; what it has closed when it returns are its
own channels `internalInput` and `internalOutput`. -/
theorem processInParallel_empty_input (chanLimit : Nat) (cfg : Config A B) (oc : Bool) :
    (chanLimit < cfg.bufferSize →
      enter chanLimit cfg (emptyStart A oc) = Except.error Panic.makechanSizeOutOfRange) ∧
    (cfg.bufferSize ≤ chanLimit →
      ∃ s0 : State A B, enter chanLimit cfg (emptyStart A oc) = Except.ok s0 ∧
        ∀ (acts : List (Action A)) (s : State A B), (∀ a ∈ acts, a.isCancel = false) →
          exec cfg s0 acts = some s →
          s.output = [] ∧ s.calls = 0 ∧ s.outputClosed = oc ∧ s.panic = none ∧
          (∀ r, s.result = some r →
            r = none ∧ s.internalInput.closed = true ∧ s.internalOutput.closed = true) ∧
          acts.length ≤ 2 * cfg.workersCount + 7 ∧
          (acts.length = 2 * cfg.workersCount + 7 → s.result = some none) ∧
          (s.result = none →
            ∃ a : Action A, a.isCancel = false ∧ (step cfg s a).isSome = true)) := by
  refine ⟨enter_error chanLimit cfg _, ?_⟩
  intro hmake
  refine ⟨init cfg (emptyStart A oc), enter_ok chanLimit cfg _ hmake, ?_⟩
  intro acts s hnc hs
  obtain ⟨h, hrem⟩ := (InvE.e_init cfg oc).e_exec hnc hs
  rw [remaining_init] at hrem
  refine ⟨h.output, h.calls, h.outClosed, h.panic, ?_, by omega, ?_,
    fun hres => h.progress hres⟩
  · intro r hr
    obtain ⟨h1, h2, _, _⟩ := h.res r hr
    exact ⟨h1, h.closedA.mpr h2, h.closedB.mpr (Or.inr h2)⟩
  · intro hlen
    have h0 : s.remaining = 0 := by omega
    cases hres : s.result with
    | none => simp [State.remaining, hres] at h0
    | some r => rw [(h.res r hres).1]

end PipelineClaimsB

/-! ## The properties at concrete runs -/

/-- C1 at the scenario of the specification: the jobs are finished in the order 3, 2, 1, 0,
4, the call returns `nil` and `output` received `[1, 4, 9, 16, 25]`. -/
theorem processInParallel_nil_output_witness :
    Reachable sqCfg sqStart sqFinal ∧ sqFinal.result = some none ∧
    sqFinal.output = [1, 4, 9, 16, 25] ∧
    (sqFinal.output = sqFinal.delivered.map sqCfg.processFn ∧
      sqFinal.output.length = sqFinal.delivered.length) :=
  ⟨⟨sqActs, rfl⟩, rfl, rfl, processInParallel_nil_output sqCfg sqStart sqFinal ⟨sqActs, rfl⟩ rfl⟩

/-- C2 at a cancelled run: four items received, one value sent. -/
theorem processInParallel_output_initial_segment_witness :
    Reachable sqCfg sqStart sqCancelled ∧
    (sqCancelled.output <+: sqCancelled.received.map sqCfg.processFn ∧
     sqCancelled.output = (sqCancelled.received.take sqCancelled.output.length).map sqCfg.processFn ∧
     ∀ (k : Nat) (b : Nat), sqCancelled.output[k]? = some b →
       ∃ x, sqCancelled.received[k]? = some x ∧ b = sqCfg.processFn x) :=
  ⟨⟨sqCancelActs, rfl⟩,
   processInParallel_output_initial_segment sqCfg sqStart sqCancelled ⟨sqCancelActs, rfl⟩⟩

/-- C6 at a run with a stalled sink: with `bufferSize = 1` three jobs are allocated and none
is forwarded. -/
theorem processInParallel_unflushed_bound_witness :
    Reachable oneCfg stallStart stallState ∧ stallState.unflushed = 3 ∧
    (stallState.unflushed ≤ oneCfg.bufferSize + oneCfg.workersCount + 2 ∧
      stallState.unflushed ≤ oneCfg.bufferSize + 2) :=
  ⟨⟨stallActs, rfl⟩, rfl,
   processInParallel_unflushed_bound oneCfg stallStart stallState ⟨stallActs, rfl⟩⟩

/-- C10 at a state in which the flusher is about to send the output of job 0. -/
theorem processInParallel_job_completed_once_witness :
    Reachable oneCfg stallStart stallSendState ∧
    stallSendState.flusher = FlusherPc.send 0 ∧
    ((∀ (j : Nat) (job : internalJob Nat Nat), stallSendState.jobs[j]? = some job →
      job.claims ≤ 1 ∧ job.writes ≤ 1 ∧ job.closes ≤ 1 ∧ (job.done = true ↔ job.closes = 1)) ∧
    stallSendState.panic ≠ some Panic.closeOfClosedChannel ∧
    (∀ (i k : Nat) (wi wk : WorkerPc) (j : Nat), stallSendState.workers[i]? = some wi →
      stallSendState.workers[k]? = some wk → wi.holds = some j → wk.holds = some j → i = k) ∧
    (∀ j, stallSendState.flusher = FlusherPc.send j →
      ∃ job, stallSendState.jobs[j]? = some job ∧ job.done = true ∧
        job.writes = 1 ∧ job.out = oneCfg.processFn job.in_)) :=
  ⟨⟨stallSendActs, rfl⟩, rfl,
   processInParallel_job_completed_once oneCfg stallStart stallSendState ⟨stallSendActs, rfl⟩⟩

/-- C4 fails as stated. With `workersCount = 0` and an `input` that is closed and empty the
call returns `nil`; and with an item on `input` the feeder receives it and the call returns
only after the cancellation. -/
theorem processInParallel_zero_workers_not_rejected :
    (exec zeroCfg (init zeroCfg (emptyStart Nat false)) zeroActs).map
        (fun s => s.result) = some (some none) ∧
    (exec zeroCfg (init zeroCfg openStart) (zeroItemActs.take 2)).map
        (fun s => (s.received, s.result)) = some ([7], none) ∧
    (exec zeroCfg (init zeroCfg openStart) zeroItemActs).map
        (fun s => s.result) = some (some (some CtxErr.DeadlineExceeded)) := by
  refine ⟨?_, ?_, ?_⟩ <;> rfl

/-- C4 (as the code has it) at a run without workers that receives the item `7` and returns
after the deadline. -/
theorem processInParallel_zero_workers_witness :
    zeroCfg.workersCount = 0 ∧ Reachable zeroCfg openStart zeroItemFinal ∧
    zeroItemFinal.result = some (some CtxErr.DeadlineExceeded) ∧
    (zeroItemFinal.calls = 0 ∧ zeroItemFinal.output = [] ∧
     ∀ r, zeroItemFinal.result = some r →
      (r = none → zeroItemFinal.received = [] ∧ zeroItemFinal.delivered = [] ∧
        zeroItemFinal.inputClosed = true) ∧
      (zeroItemFinal.received ≠ [] → r = zeroItemFinal.ctxErr ∧ zeroItemFinal.ctxErr ≠ none)) :=
  ⟨rfl, ⟨zeroItemActs, rfl⟩, rfl,
   processInParallel_zero_workers zeroCfg openStart zeroItemFinal rfl ⟨zeroItemActs, rfl⟩⟩

/-- C5 fails as stated. On a closed, empty `input` and an open `output`, with
`bufferSize = 1`, the `make` calls succeed, the call returns `nil`, has sent nothing and has
not called `processFn`, and `output` is still open.  And with `bufferSize = 1 << 60` the call
does not return `nil`: it ends in `make` with `makechan: size out of range`. -/
theorem processInParallel_empty_input_output_not_closed :
    enter chanLimit64 oneCfg (emptyStart Nat false) =
      Except.ok (init oneCfg (emptyStart Nat false)) ∧
    (exec oneCfg (init oneCfg (emptyStart Nat false)) emptyActs).map
        (fun s => (s.result, s.output, s.calls, s.outputClosed)) =
      some (some none, [], 0, false) ∧
    enter chanLimit64 bigCfg (emptyStart Nat false) =
      Except.error Panic.makechanSizeOutOfRange := by
  refine ⟨?_, ?_, ?_⟩ <;> rfl

/-- C5 (as the code has it) at a complete run with one worker and `bufferSize = 1`: the
`make` calls succeed, the schedule has the full length `2 * 1 + 7`, and the call has returned
`nil` with `output` untouched. -/
theorem processInParallel_empty_input_witness :
    oneCfg.bufferSize ≤ chanLimit64 ∧
    enter chanLimit64 oneCfg (emptyStart Nat false) =
      Except.ok (init oneCfg (emptyStart Nat false)) ∧
    (∀ a ∈ emptyActs, a.isCancel = false) ∧
    exec oneCfg (init oneCfg (emptyStart Nat false)) emptyActs = some emptyFinal ∧
    emptyActs.length = 2 * oneCfg.workersCount + 7 ∧
    emptyFinal.result = some none ∧
    (emptyFinal.output = [] ∧ emptyFinal.calls = 0 ∧ emptyFinal.outputClosed = false ∧
     emptyFinal.panic = none ∧
     (∀ r, emptyFinal.result = some r → r = none ∧
       emptyFinal.internalInput.closed = true ∧ emptyFinal.internalOutput.closed = true) ∧
     emptyActs.length ≤ 2 * oneCfg.workersCount + 7 ∧
     (emptyActs.length = 2 * oneCfg.workersCount + 7 → emptyFinal.result = some none) ∧
     (emptyFinal.result = none →
       ∃ a : Action Nat, a.isCancel = false ∧ (step oneCfg emptyFinal a).isSome = true)) := by
  have hmake : oneCfg.bufferSize ≤ chanLimit64 := by decide
  obtain ⟨s0, h0, hall⟩ := (processInParallel_empty_input chanLimit64 oneCfg false).2 hmake
  have hinit : enter chanLimit64 oneCfg (emptyStart Nat false) =
      Except.ok (init oneCfg (emptyStart Nat false)) := rfl
  rw [hinit] at h0
  injection h0 with h0
  subst h0
  exact ⟨hmake, hinit, by decide, rfl, rfl, rfl, hall emptyActs emptyFinal (by decide) rfl⟩

end Util
